import Mathlib

/-!
Verification of the LinkedIn-LeadGeneration repository core
(extraction / normalization / deduplication / upsert logic).

The Python sources are shallowly embedded: strings are modelled as
List Char (with String wrappers at the boundary), SQLite tables as
lists of row structures, and SQL statements as explicit list
transformations.  Python string primitives (strip, lower, replace,
percent-decoding, urlparse) are modelled on the fragment exercised by
this code base: ASCII text plus the German letters that occur in the
legal-form tables.  Each definition carries a note naming the source
function it embeds.
-/

namespace Py

/-- Python str.isspace characters used by strip / split: the six ASCII
whitespace characters.  The sources only ever strip ASCII whitespace. -/
def isSpaceChar (c : Char) : Bool :=
  c == ' ' || c == '\t' || c == '\n' || c == '\r' || c == Char.ofNat 11 || c == Char.ofNat 12

/-- Python str.lower, modelled on ASCII letters plus the German
capital umlauts that can occur in company names and legal forms. -/
def lowerChar (c : Char) : Char :=
  if 'A' ≤ c && c ≤ 'Z' then Char.ofNat (c.toNat + 32)
  else if c = 'Ä' then 'ä'
  else if c = 'Ö' then 'ö'
  else if c = 'Ü' then 'ü'
  else c

def lowerStr (l : List Char) : List Char := l.map lowerChar

/-- Python str.strip with no argument (leading and trailing whitespace). -/
def strip (l : List Char) : List Char :=
  ((l.dropWhile isSpaceChar).reverse.dropWhile isSpaceChar).reverse

/-- Python str.rstrip applied with a single given character. -/
def rstripChar (sep : Char) (l : List Char) : List Char :=
  (l.reverse.dropWhile (fun c => c == sep)).reverse

/-- Prefix test (str.startswith). -/
def isPre : List Char → List Char → Bool
  | [], _ => true
  | _ :: _, [] => false
  | a :: as, b :: bs => a == b && isPre as bs

/-- Case-insensitive prefix test (used by re.IGNORECASE literal matches). -/
def isPreCI : List Char → List Char → Bool
  | [], _ => true
  | _ :: _, [] => false
  | a :: as, b :: bs => lowerChar a == lowerChar b && isPreCI as bs

/-- Python substring containment (the "in" operator on str). -/
def containsSub : List Char → List Char → Bool
  | l, needle =>
    isPre needle l ||
      (match l with
       | [] => false
       | _ :: t => containsSub t needle)

/-- Python str.replace: replace every (leftmost, non-overlapping)
occurrence of old by new.  The sources only call it with a non-empty
old string.  Implemented with a fuel argument (initialised to the
length of the input, which bounds the number of steps) so that the
kernel can evaluate it. -/
def pyReplaceAux (old new : List Char) : Nat → List Char → List Char
  | _, [] => []
  | 0, l => l
  | fuel + 1, c :: rest =>
    if old ≠ [] && isPre old (c :: rest) then
      new ++ pyReplaceAux old new fuel ((c :: rest).drop old.length)
    else
      c :: pyReplaceAux old new fuel rest

def pyReplace (old new l : List Char) : List Char :=
  pyReplaceAux old new l.length l

/-- Python str.split with a single-character separator. -/
def splitOnChar (sep : Char) : List Char → List (List Char)
  | [] => [[]]
  | c :: rest =>
    if c == sep then [] :: splitOnChar sep rest
    else
      match splitOnChar sep rest with
      | [] => [[c]]
      | g :: gs => (c :: g) :: gs

/-- Hexadecimal digit value, used by percent-decoding. -/
def hexVal (c : Char) : Option Nat :=
  if '0' ≤ c && c ≤ '9' then some (c.toNat - 48)
  else if 'a' ≤ c && c ≤ 'f' then some (c.toNat - 87)
  else if 'A' ≤ c && c ≤ 'F' then some (c.toNat - 55)
  else none

/-- urllib.parse.unquote, modelled on the ASCII fragment: a valid
percent escape with byte value below 128 decodes to that ASCII
character; an invalid escape stays literal (as in Python).  Escapes
with byte value 128 or above (multi-byte UTF-8 sequences) are outside
the modelled fragment and are kept literal; no theorem below depends
on their value. -/
def unquoteAux : Nat → List Char → List Char
  | _, [] => []
  | 0, l => l
  | fuel + 1, c :: rest =>
    if c = '%' then
      match rest with
      | a :: b :: rest2 =>
        match hexVal a, hexVal b with
        | some ha, some hb =>
          if 16 * ha + hb < 128 then Char.ofNat (16 * ha + hb) :: unquoteAux fuel rest2
          else c :: a :: b :: unquoteAux fuel rest2
        | _, _ => c :: unquoteAux fuel rest
      | _ => c :: unquoteAux fuel rest
    else c :: unquoteAux fuel rest

def unquote (l : List Char) : List Char := unquoteAux l.length l

/-- re.sub of one-or-more whitespace by a single space (fuelled for
kernel evaluation; the fuel is initialised to the input length, which
bounds the number of steps). -/
def collapseWsAux : Nat → List Char → List Char
  | _, [] => []
  | 0, l => l
  | fuel + 1, c :: rest =>
    if isSpaceChar c then ' ' :: collapseWsAux fuel (rest.dropWhile isSpaceChar)
    else c :: collapseWsAux fuel rest

def collapseWs (l : List Char) : List Char := collapseWsAux l.length l

/-- Python str.split with no argument: non-empty maximal runs of
non-whitespace (fuelled for kernel evaluation). -/
def pyWordsAux : Nat → List Char → List (List Char)
  | _, [] => []
  | 0, _ => []
  | fuel + 1, c :: rest =>
    if isSpaceChar c then pyWordsAux fuel (rest.dropWhile isSpaceChar)
    else
      (c :: rest.takeWhile (fun d => ¬ isSpaceChar d)) ::
        pyWordsAux fuel (rest.dropWhile (fun d => ¬ isSpaceChar d))

def pyWords (l : List Char) : List (List Char) := pyWordsAux l.length l

/-- Single-space join of word lists (" ".join(words)). -/
def joinSpace : List (List Char) → List Char
  | [] => []
  | [w] => w
  | w :: ws => w ++ ' ' :: joinSpace ws

end Py

-- Sanity checks for the primitives.

namespace Py

/-- Result of urllib.parse.urlparse restricted to the components the
sources read: scheme, netloc and path. -/
structure UrlParts where
  scheme : List Char
  netloc : List Char
  path : List Char
deriving Repr, DecidableEq

def schemeChar (c : Char) : Bool :=
  c.isAlpha || c.isDigit || c == '+' || c == '-' || c == '.'

/-- Scheme detection of urllib.parse.urlsplit: the text before the
first colon is a scheme when it is non-empty, starts with an ASCII
letter and consists of scheme characters; it is returned lowercased
together with the remainder after the colon. -/
def splitSchemeAux (acc : List Char) : List Char → Option (List Char × List Char)
  | [] => none
  | c :: rest =>
    if c = ':' then (if acc ≠ [] then some (acc.reverse, rest) else none)
    else if schemeChar c then splitSchemeAux (c :: acc) rest
    else none

def splitScheme (l : List Char) : Option (List Char × List Char) :=
  match splitSchemeAux [] l with
  | some (s, r) =>
    match s with
    | c :: _ => if c.isAlpha then some (lowerStr s, r) else none
    | [] => none
  | none => none

def netlocEnd (c : Char) : Bool := c == '/' || c == '?' || c == '#'

def queryOrFrag (c : Char) : Bool := c == '?' || c == '#'

/-- The uses_params list of urllib.parse: urlparse performs the params
split only for these (lowercased) schemes; the empty scheme is among
them. -/
def usesParams : List (List Char) :=
  [[], "ftp".data, "hdl".data, "prospero".data, "http".data, "imap".data,
   "https".data, "shttp".data, "rtsp".data, "rtspu".data, "sip".data,
   "sips".data, "mms".data, "sftp".data, "tel".data]

/-- The params split of urllib.parse.urlparse (_splitparams): the path
is cut at the first semicolon at or after the last slash; with no
slash in the path, at the first semicolon anywhere.  Scanning left to
right, that is exactly the first semicolon with no later slash; a path
without such a semicolon is returned unchanged, which also covers the
caller's guard testing whether the path contains a semicolon at
all. -/
def cutParams : List Char → List Char
  | [] => []
  | c :: rest => if c = ';' ∧ ¬('/' ∈ rest) then [] else c :: cutParams rest

/-- urllib.parse.urlparse, modelled on the scheme/netloc/path fragment
the sources use: optional scheme before a colon, a netloc after a
double slash running to the first slash, question mark or hash, and a
path running to the first question mark or hash, then cut at the
params separator when the scheme is in uses_params.  Query, params
and fragment are dropped because no caller reads them. -/
def pyUrlparse (l : List Char) : UrlParts :=
  let (scheme, rest) :=
    match splitScheme l with
    | some (s, r) => (s, r)
    | none => ([], l)
  if isPre "//".data rest then
    let r2 := rest.drop 2
    let rawPath := (r2.dropWhile (fun c => ! netlocEnd c)).takeWhile (fun c => ! queryOrFrag c)
    { scheme := scheme
      netloc := r2.takeWhile (fun c => ! netlocEnd c)
      path := if scheme ∈ usesParams then cutParams rawPath else rawPath }
  else
    let rawPath := rest.takeWhile (fun c => ! queryOrFrag c)
    { scheme := scheme, netloc := []
      path := if scheme ∈ usesParams then cutParams rawPath else rawPath }

end Py

namespace DomainUtils

/-- The three zero-width characters removed by the normalizer. -/
def zwsp : Char := Char.ofNat 0x200b

def zwnj : Char := Char.ofNat 0x200c

def zwj : Char := Char.ofNat 0x200d

/-- unicodedata.normalize NFKC, modelled as the identity: NFKC is the
identity on ASCII strings, and every theorem below that inspects a
slug value restricts it to the ASCII fragment. -/
def nfkc (l : List Char) : List Char := l

/-- Slug canonicalisation inside normalize_linkedin_profile_url:
percent-decode, Unicode-normalize, strip, lowercase, then remove
zero-width characters (src/services/domain_utils.py lines 39 to 43). -/
def canonSlug (slug : List Char) : List Char :=
  let s1 := Py.unquote slug
  let s2 := Py.lowerStr (Py.strip (nfkc s1))
  s2.filter (fun c => !(c == zwsp || c == zwnj || c == zwj))

def canonPre : List Char := "https://linkedin.com/in/".data

/-- Host canonicalisation inside normalize_linkedin_profile_url:
lowercase, drop every "www." occurrence, rewrite the German mirror
host (src/services/domain_utils.py line 29). -/
def cleanHost (netloc : List Char) : List Char :=
  Py.pyReplace "de.linkedin.com".data "linkedin.com".data
    (Py.pyReplace "www.".data [] (Py.lowerStr netloc))

/-- normalize_linkedin_profile_url from src/services/domain_utils.py,
on the List Char representation.  The falsy test on the argument is
the empty-string test; the try/except wrapper never fires in the
modelled fragment because every operation is total. -/
def normalizeList (url : List Char) : Option (List Char) :=
  if url = [] then none
  else
    let u := Py.pyUrlparse url
    let host := cleanHost u.netloc
    let path := Py.rstripChar '/' u.path
    if host = [] then none
    else if !(Py.containsSub host "linkedin.com".data) || !(Py.isPre "/in/".data path) then
      none
    else
      let parts := (Py.splitOnChar '/' path).filter (fun p => !(p == []))
      if 2 ≤ parts.length ∧ parts.getD 0 [] = "in".data then
        some (canonPre ++ canonSlug (parts.getD 1 []))
      else
        some ("https://linkedin.com".data ++ path)

def normalize_linkedin_profile_url (url : String) : Option String :=
  (normalizeList url.data).map (fun l => String.mk l)

/-- Constructor for the structured profile URLs quantified over by the
variant property: scheme, host, the profile path marker, a slug and an
optional trailing slash. -/
def mkProfileUrl (scheme host slug : List Char) (trail : Bool) : List Char :=
  scheme ++ "://".data ++ host ++ "/in/".data ++ slug ++ (if trail then ['/'] else [])

/-- The two URL schemes a profile link can carry. -/
def schemeVariants : List String := ["http", "https"]

/-- Host variants: the canonical host, the www mirror and country-code
mirror hosts. -/
def hostVariants : List String :=
  ["linkedin.com", "www.linkedin.com", "de.linkedin.com", "fr.linkedin.com",
   "uk.linkedin.com", "at.linkedin.com", "ch.linkedin.com", "es.linkedin.com"]

/-- A slug that keeps the URL a single profile path segment under
urlparse: non-empty and free of the path, query, fragment and params
separators (a raw semicolon would be cut off the last path segment by
the params split, so it is excluded here; a percent-encoded semicolon
is fine and decodes into the canonical slug). -/
def slugSafe (slug : List Char) : Bool :=
  !(slug == []) && slug.all (fun c => !(c == '/' || c == '?' || c == '#' || c == ';'))

/-- The ASCII fragment on which the unquote / NFKC / lowercase model is
exact: the slug and its percent-decoding stay below code point 128. -/
def slugAscii (slug : List Char) : Bool :=
  slug.all (fun c => c.toNat < 128) && (Py.unquote slug).all (fun c => c.toNat < 128)

/-- A character of an already-canonical slug on which re-normalization
acts as the identity: ASCII, lowercase, not whitespace, no percent
escape and no path, query, fragment or params separator (a decoded
semicolon in a canonical slug would be cut again by the params split
of the next parse, so it is not plain). -/
def plainChar (c : Char) : Bool :=
  c.toNat < 128 && !(Py.isSpaceChar c) && Py.lowerChar c == c &&
    !(c == '%' || c == '/' || c == '?' || c == '#' || c == ';')

/-- A canonical slug made of plain characters only. -/
def plainSlug (slug : List Char) : Bool := !(slug == []) && slug.all plainChar

end DomainUtils

namespace Db

/-- A non-NULL SQLite value: an integer or a text value. -/
inductive SqlVal where
  | int (n : Int)
  | text (s : String)
deriving Repr, DecidableEq

/-- A nullable SQLite column value; none models NULL. -/
abbrev Col := Option SqlVal

/-- SQL COALESCE of two nullable values: the first non-NULL one. -/
def coalesce (a b : Col) : Col :=
  match a with
  | some v => some v
  | none => b

end Db

namespace PeopleRepo

/-- The parameters of PeopleRepo.upsert_person
(src/db/repos/people_repo.py lines 11 to 28): the linkedin_profile key
plus the fourteen nullable column parameters. -/
structure UpsertParams where
  linkedin_profile : String
  first_name : Db.Col
  last_name : Db.Col
  title_current : Db.Col
  email : Db.Col
  location_text : Db.Col
  connections_linkedin : Db.Col
  followers_linkedin : Db.Col
  website_info : Db.Col
  phone_info : Db.Col
  info_raw : Db.Col
  insights_text : Db.Col
  lookup_date : Db.Col
  source_name : Db.Col
  source_query : Db.Col
deriving Repr, DecidableEq

/-- A people-table row restricted to the columns upsert_person touches
(schema in src/db/schema.py). -/
structure Row where
  id : Nat
  linkedin_profile : String
  first_name : Db.Col
  last_name : Db.Col
  title_current : Db.Col
  email : Db.Col
  location_text : Db.Col
  connections_linkedin : Db.Col
  followers_linkedin : Db.Col
  website_info : Db.Col
  phone_info : Db.Col
  info_raw : Db.Col
  insights_text : Db.Col
  lookup_date : Db.Col
  source_name : Db.Col
  source_query : Db.Col
deriving Repr, DecidableEq

/-- The people table: rows plus the AUTOINCREMENT counter. -/
structure Table where
  rows : List Row
  nextId : Nat
deriving Repr, DecidableEq

/-- PeopleRepo.upsert_person (src/db/repos/people_repo.py lines 11 to
55).  The INSERT evaluates lookup_date as COALESCE(?, datetime(now)) —
the now argument models datetime(now) — and ON
CONFLICT(linkedin_profile) DO UPDATE sets every column to
COALESCE(excluded.col, people.col).  In SQLite, excluded refers to the
row that would have been inserted, with its VALUES expressions already
evaluated, so excluded.lookup_date is never NULL.  Returns the updated
table and the RETURNING id. -/
def upsert_person (t : Table) (p : UpsertParams) (now : String) : Table × Nat :=
  let lookupIns : Db.Col := Db.coalesce p.lookup_date (some (Db.SqlVal.text now))
  match t.rows.find? (fun q => q.linkedin_profile = p.linkedin_profile) with
  | some r =>
    let r2 : Row :=
      { r with
        first_name := Db.coalesce p.first_name r.first_name
        last_name := Db.coalesce p.last_name r.last_name
        title_current := Db.coalesce p.title_current r.title_current
        email := Db.coalesce p.email r.email
        location_text := Db.coalesce p.location_text r.location_text
        connections_linkedin := Db.coalesce p.connections_linkedin r.connections_linkedin
        followers_linkedin := Db.coalesce p.followers_linkedin r.followers_linkedin
        website_info := Db.coalesce p.website_info r.website_info
        phone_info := Db.coalesce p.phone_info r.phone_info
        info_raw := Db.coalesce p.info_raw r.info_raw
        insights_text := Db.coalesce p.insights_text r.insights_text
        lookup_date := Db.coalesce lookupIns r.lookup_date
        source_name := Db.coalesce p.source_name r.source_name
        source_query := Db.coalesce p.source_query r.source_query }
    ({ t with
        rows := t.rows.map (fun q => if q.linkedin_profile = p.linkedin_profile then r2 else q) },
      r.id)
  | none =>
    let r : Row :=
      { id := t.nextId
        linkedin_profile := p.linkedin_profile
        first_name := p.first_name
        last_name := p.last_name
        title_current := p.title_current
        email := p.email
        location_text := p.location_text
        connections_linkedin := p.connections_linkedin
        followers_linkedin := p.followers_linkedin
        website_info := p.website_info
        phone_info := p.phone_info
        info_raw := p.info_raw
        insights_text := p.insights_text
        lookup_date := lookupIns
        source_name := p.source_name
        source_query := p.source_query }
    ({ rows := t.rows ++ [r], nextId := t.nextId + 1 }, t.nextId)

/-- An upsert parameter record that sets only the name (all other
columns null), as in the complementary-fields scenario. -/
def nameOnlyParams (profile nameV : String) : UpsertParams :=
  { linkedin_profile := profile
    first_name := some (Db.SqlVal.text nameV)
    last_name := none, title_current := none, email := none, location_text := none
    connections_linkedin := none, followers_linkedin := none, website_info := none
    phone_info := none, info_raw := none, insights_text := none, lookup_date := none
    source_name := none, source_query := none }

/-- An upsert parameter record that sets only the email. -/
def emailOnlyParams (profile emailV : String) : UpsertParams :=
  { linkedin_profile := profile
    first_name := none
    last_name := none, title_current := none, email := some (Db.SqlVal.text emailV)
    location_text := none
    connections_linkedin := none, followers_linkedin := none, website_info := none
    phone_info := none, info_raw := none, insights_text := none, lookup_date := none
    source_name := none, source_query := none }

/-- The empty people table (fresh database, ids start at 1). -/
def emptyTable : Table := { rows := [], nextId := 1 }

/-- Concrete upsert: name Anna, lookup date 1999-01-01, rest null. -/
def cexParams1 : UpsertParams :=
  { linkedin_profile := "https://linkedin.com/in/anna"
    first_name := some (Db.SqlVal.text "Anna")
    last_name := none, title_current := none, email := none, location_text := none
    connections_linkedin := none, followers_linkedin := none, website_info := none
    phone_info := none, info_raw := none, insights_text := none
    lookup_date := some (Db.SqlVal.text "1999-01-01")
    source_name := none, source_query := none }

/-- Concrete upsert of the same identity: name Beate, null lookup date. -/
def cexParams2 : UpsertParams :=
  { linkedin_profile := "https://linkedin.com/in/anna"
    first_name := some (Db.SqlVal.text "Beate")
    last_name := none, title_current := none, email := none, location_text := none
    connections_linkedin := none, followers_linkedin := none, website_info := none
    phone_info := none, info_raw := none, insights_text := none
    lookup_date := none
    source_name := none, source_query := none }

/-- A concrete stored row used to instantiate the conflict semantics. -/
def wRow : Row :=
  { id := 7, linkedin_profile := "https://linkedin.com/in/willa"
    first_name := some (Db.SqlVal.text "Willa")
    last_name := none, title_current := none, email := none, location_text := none
    connections_linkedin := none, followers_linkedin := none, website_info := none
    phone_info := none, info_raw := none, insights_text := none
    lookup_date := some (Db.SqlVal.text "2000-01-01")
    source_name := none, source_query := none }

/-- A one-row table holding wRow. -/
def wTable : Table := { rows := [wRow], nextId := 8 }

/-- A concrete conflicting upsert that supplies only an email. -/
def wParams : UpsertParams :=
  { linkedin_profile := "https://linkedin.com/in/willa"
    first_name := none
    last_name := none, title_current := none
    email := some (Db.SqlVal.text "willa.mail")
    location_text := none
    connections_linkedin := none, followers_linkedin := none, website_info := none
    phone_info := none, info_raw := none, insights_text := none, lookup_date := none
    source_name := none, source_query := none }

/-- The keyword parameter names accepted by upsert_person
(src/db/repos/people_repo.py lines 11 to 28). -/
def upsertPersonParamNames : List String :=
  ["linkedin_profile", "first_name", "last_name", "title_current", "email",
   "location_text", "connections_linkedin", "followers_linkedin", "website_info",
   "phone_info", "info_raw", "insights_text", "lookup_date", "source_name",
   "source_query"]

/-- Keyword lookup in an argument list; an absent optional keyword
binds its None default of the upsert_person signature. -/
def lookupKw (kwargs : List (String × Db.Col)) (k : String) : Db.Col :=
  match kwargs.find? (fun kv => kv.1 = k) with
  | some kv => kv.2
  | none => none

/-- PeopleRepo.upsert (src/db/repos/people_repo.py lines 64 to 66): a
pure forwarder, upsert_person(**kwargs).  Python keyword binding
raises TypeError for any keyword that is not an upsert_person
parameter, before any database work, modelled as Except.error leaving
the table out of the result.  The required linkedin_profile must be
bound to a string; the callers modelled here always pass it. -/
def upsert (t : Table) (now : String) (kwargs : List (String × Db.Col)) :
    Except String (Table × Nat) :=
  if kwargs.all (fun kv => decide (kv.1 ∈ upsertPersonParamNames)) then
    match lookupKw kwargs "linkedin_profile" with
    | some (Db.SqlVal.text url) =>
      Except.ok (upsert_person t
        { linkedin_profile := url
          first_name := lookupKw kwargs "first_name"
          last_name := lookupKw kwargs "last_name"
          title_current := lookupKw kwargs "title_current"
          email := lookupKw kwargs "email"
          location_text := lookupKw kwargs "location_text"
          connections_linkedin := lookupKw kwargs "connections_linkedin"
          followers_linkedin := lookupKw kwargs "followers_linkedin"
          website_info := lookupKw kwargs "website_info"
          phone_info := lookupKw kwargs "phone_info"
          info_raw := lookupKw kwargs "info_raw"
          insights_text := lookupKw kwargs "insights_text"
          lookup_date := lookupKw kwargs "lookup_date"
          source_name := lookupKw kwargs "source_name"
          source_query := lookupKw kwargs "source_query" } now)
    | _ => Except.error "TypeError: linkedin_profile must be a string"
  else
    Except.error "TypeError: upsert_person() got an unexpected keyword argument"

end PeopleRepo

namespace CompaniesRepo

/-- A companies-table row: the schema columns of src/db/schema.py plus
the provenance columns the repository writes. -/
structure Row where
  id : Nat
  name : Db.Col
  domain : Db.Col
  website : Db.Col
  legal_form : Db.Col
  industries_json : Db.Col
  locations_de_json : Db.Col
  multinational : Db.Col
  size_employees : Db.Col
  business_model_json : Db.Col
  products_json : Db.Col
  recent_news_json : Db.Col
  last_enriched_at : Db.Col
  source_name : Db.Col
  source_query : Db.Col
  search_query_id : Db.Col
deriving Repr, DecidableEq

/-- The companies table: rows plus the AUTOINCREMENT counter. -/
structure Table where
  rows : List Row
  nextId : Nat
deriving Repr, DecidableEq

/-- Python "a or b" on an optional string with a string default:
None and the empty string are falsy. -/
def orStr (a : Option String) (b : String) : String :=
  match a with
  | some s => if s = "" then b else s
  | none => b

/-- safe_name = name or domain or "Unknown Company"
(src/db/repos/companies_repo.py line 20). -/
def safeName (name domain : Option String) : String :=
  orStr name (orStr domain "Unknown Company")

/-- An optional Python string as a nullable SQL text parameter. -/
def optText (o : Option String) : Db.Col := o.map Db.SqlVal.text

/-- An optional Python int as a nullable SQL integer parameter. -/
def optInt (o : Option Int) : Db.Col := o.map Db.SqlVal.int

/-- Python truthiness of an optional string: None and empty are falsy. -/
def truthyStr : Option String → Bool
  | none => false
  | some s => !(s == "")

/-- The number of rows carrying a given text domain. -/
def countDomain (t : Table) (d : String) : Nat :=
  t.rows.countP (fun r => r.domain = some (Db.SqlVal.text d))

/-- The provisional row inserted when no (truthy) domain is given
(src/db/repos/companies_repo.py lines 41 to 43). -/
def stubRow (i : Nat) (name domain source_name source_query : Option String)
    (search_query_id : Option Int) : Row :=
  { id := i
    name := some (Db.SqlVal.text (safeName name domain))
    domain := none, website := none
    legal_form := none, industries_json := none, locations_de_json := none
    multinational := none, size_employees := none, business_model_json := none
    products_json := none, recent_news_json := none, last_enriched_at := none
    source_name := optText source_name, source_query := optText source_query
    search_query_id := optInt search_query_id }

/-- The fresh row inserted when a domain is given and no row owns it
(src/db/repos/companies_repo.py lines 33 to 38). -/
def domainRow (i : Nat) (name : Option String) (d : String)
    (website source_name source_query : Option String)
    (search_query_id : Option Int) : Row :=
  { id := i
    name := some (Db.SqlVal.text (safeName name (some d)))
    domain := some (Db.SqlVal.text d)
    website := optText website
    legal_form := none, industries_json := none, locations_de_json := none
    multinational := none, size_employees := none, business_model_json := none
    products_json := none, recent_news_json := none, last_enriched_at := none
    source_name := optText source_name, source_query := optText source_query
    search_query_id := optInt search_query_id }

/-- CompaniesRepo.upsert_by_domain (src/db/repos/companies_repo.py
lines 11 to 43): with a truthy domain, update the row owning it
(name is always set, since safe_name is never null; website and the
provenance columns via COALESCE with the incoming value first) and
return its id, or insert a fresh row with that domain; with no truthy
domain, insert a provisional stub row with a NULL domain. -/
def upsert_by_domain (t : Table) (name domain website source_name source_query : Option String)
    (search_query_id : Option Int) : Table × Nat :=
  let safe_name := safeName name domain
  if truthyStr domain then
    let d := domain.getD ""
    match t.rows.find? (fun r => r.domain = some (Db.SqlVal.text d)) with
    | some r =>
      let r2 : Row :=
        { r with
          name := Db.coalesce (some (Db.SqlVal.text safe_name)) r.name
          website := Db.coalesce (optText website) r.website
          source_name := Db.coalesce (optText source_name) r.source_name
          source_query := Db.coalesce (optText source_query) r.source_query
          search_query_id := Db.coalesce (optInt search_query_id) r.search_query_id }
      ({ t with rows := t.rows.map (fun q => if q.id = r.id then r2 else q) }, r.id)
    | none =>
      ({ rows := t.rows ++ [domainRow t.nextId name d website source_name source_query search_query_id]
         nextId := t.nextId + 1 }, t.nextId)
  else
    ({ rows := t.rows ++ [stubRow t.nextId name domain source_name source_query search_query_id]
       nextId := t.nextId + 1 }, t.nextId)

/-- The enrichment payload of CompaniesRepo.update_enrichment: each of
the ten recognised keys is absent (outer none) or present with a
nullable SQL value.  List-valued entries are modelled as their
serialized JSON text. -/
structure EnrichFields where
  legal_form : Option Db.Col
  industries_json : Option Db.Col
  locations_de_json : Option Db.Col
  multinational : Option Db.Col
  domain : Option Db.Col
  website : Option Db.Col
  size_employees : Option Db.Col
  business_model_json : Option Db.Col
  products_json : Option Db.Col
  recent_news_json : Option Db.Col
deriving Repr, DecidableEq

/-- Python truthiness of a present-or-absent nullable value, as in
safe_fields.get("domain"): absent, NULL, empty text and zero are
falsy. -/
def truthyVal : Option Db.Col → Bool
  | some (some (Db.SqlVal.text s)) => !(s == "")
  | some (some (Db.SqlVal.int n)) => !(n == 0)
  | _ => false

/-- Application of the recognised enrichment keys to a row: a present
key sets its column to the payload value (possibly NULL), an absent
key leaves the column; last_enriched_at is always stamped with the
current time (src/db/repos/companies_repo.py lines 66 to 90). -/
def applyFields (r : Row) (f : EnrichFields) (now : String) : Row :=
  { r with
    legal_form := f.legal_form.getD r.legal_form
    industries_json := f.industries_json.getD r.industries_json
    locations_de_json := f.locations_de_json.getD r.locations_de_json
    multinational := f.multinational.getD r.multinational
    domain := f.domain.getD r.domain
    website := f.website.getD r.website
    size_employees := f.size_employees.getD r.size_employees
    business_model_json := f.business_model_json.getD r.business_model_json
    products_json := f.products_json.getD r.products_json
    recent_news_json := f.recent_news_json.getD r.recent_news_json
    last_enriched_at := some (Db.SqlVal.text now) }

/-- CompaniesRepo.update_enrichment (src/db/repos/companies_repo.py
lines 44 to 90): if the payload carries a truthy domain that another
row already owns, drop only the domain key; then apply the remaining
keys to the row with the given id and stamp last_enriched_at. -/
def update_enrichment (t : Table) (company_id : Nat) (f : EnrichFields) (now : String) :
    Table :=
  let safe_fields :=
    if truthyVal f.domain then
      match f.domain with
      | some v =>
        match t.rows.find? (fun r => r.domain = v) with
        | some r => if r.id ≠ company_id then { f with domain := none } else f
        | none => f
      | none => f
    else f
  { t with
    rows := t.rows.map (fun r => if r.id = company_id then applyFields r safe_fields now else r) }

/-- The empty companies table. -/
def emptyCompanies : Table := { rows := [], nextId := 1 }

/-- Argument bundle for one upsert call in a sequence sharing a fixed
domain. -/
structure UpsertArgs where
  name : Option String
  website : Option String
  source_name : Option String
  source_query : Option String
  search_query_id : Option Int
deriving Repr, DecidableEq

/-- Table well-formedness guaranteed by the schema: the INTEGER
PRIMARY KEY values are pairwise distinct and below the AUTOINCREMENT
counter. -/
def WF (t : Table) : Prop :=
  (t.rows.map (fun r => r.id)).Nodup ∧ ∀ r ∈ t.rows, r.id < t.nextId

/-- A sequence of upserts that all supply the same domain. -/
def upsertSeq (t : Table) (d : String) (args : List UpsertArgs) : Table :=
  args.foldl
    (fun acc a =>
      (upsert_by_domain acc a.name (some d) a.website a.source_name a.source_query
        a.search_query_id).1)
    t

/-- Concrete row: Acme, owning acme.com. -/
def cRowA : Row :=
  { id := 1, name := some (Db.SqlVal.text "Acme")
    domain := some (Db.SqlVal.text "acme.com")
    website := some (Db.SqlVal.text "https://acme.com")
    legal_form := none, industries_json := none, locations_de_json := none
    multinational := none, size_employees := none, business_model_json := none
    products_json := none, recent_news_json := none, last_enriched_at := none
    source_name := none, source_query := none, search_query_id := none }

/-- Concrete row: Beta, owning beta.io. -/
def cRowB : Row :=
  { id := 2, name := some (Db.SqlVal.text "Beta")
    domain := some (Db.SqlVal.text "beta.io")
    website := some (Db.SqlVal.text "https://beta.io")
    legal_form := none, industries_json := none, locations_de_json := none
    multinational := none, size_employees := none, business_model_json := none
    products_json := none, recent_news_json := none, last_enriched_at := none
    source_name := none, source_query := none, search_query_id := none }

/-- Concrete two-company table. -/
def cTable : Table := { rows := [cRowA, cRowB], nextId := 3 }

/-- Concrete enrichment payload for Beta that tries to take over the
domain acme.com while also setting a legal form. -/
def cFields : EnrichFields :=
  { legal_form := some (some (Db.SqlVal.text "GmbH"))
    industries_json := none, locations_de_json := none, multinational := none
    domain := some (some (Db.SqlVal.text "acme.com"))
    website := none, size_employees := none, business_model_json := none
    products_json := none, recent_news_json := none }

end CompaniesRepo

namespace LegalForm

/-- A word character of the Python re module on the lowercased German
text this code handles: ASCII letters and digits, underscore, and the
German letters that occur in company names. -/
def isWordChar (c : Char) : Bool :=
  c.isAlpha || c.isDigit || c == '_' ||
    c == 'ä' || c == 'ö' || c == 'ü' || c == 'ß' || c == 'Ä' || c == 'Ö' || c == 'Ü'

/-- The word-boundary test before a word-character literal: start of
text or a non-word character. -/
def boundaryBefore : Option Char → Bool
  | none => true
  | some c => ! isWordChar c

/-- The word-boundary test after a word-character literal: end of text
or a non-word character. -/
def boundaryAfterAt : List Char → Bool
  | [] => true
  | c :: _ => ! isWordChar c

/-- re.search as a scan of every start position, threading the
previous character for the boundary tests. -/
def scanMatch (m : Option Char → List Char → Bool) : Option Char → List Char → Bool
  | prev, [] => m prev []
  | prev, c :: rest => m prev (c :: rest) || scanMatch m (some c) rest

/-- A whole-word pattern such as the simple suffix regexes: boundary,
literal word, boundary. -/
def matchWordAt (w : List Char) (prev : Option Char) (l : List Char) : Bool :=
  boundaryBefore prev && Py.isPre w l && boundaryAfterAt (l.drop w.length)

def searchWord (w : List Char) (l : List Char) : Bool := scanMatch (matchWordAt w) none l

/-- The compound patterns head-ws-ampersand-ws-co-optional-dot-ws-kg
with boundaries.  The optional dot is taken greedily; backtracking is
not needed because after refusing the dot the next required character
is the letter k, which a dot never satisfies. -/
def matchCoKgAt (head : List Char) (prev : Option Char) (l : List Char) : Bool :=
  boundaryBefore prev && Py.isPre head l &&
    (let r1 := (l.drop head.length).dropWhile Py.isSpaceChar
     match r1 with
     | '&' :: r2 =>
       let r3 := r2.dropWhile Py.isSpaceChar
       Py.isPre ("co".data) r3 &&
         (let r4 := r3.drop 2
          let r5 := if r4.head? = some '.' then r4.drop 1 else r4
          let r6 := r5.dropWhile Py.isSpaceChar
          Py.isPre ("kg".data) r6 && boundaryAfterAt (r6.drop 2))
     | _ => false)

def searchCoKg (head : List Char) (l : List Char) : Bool := scanMatch (matchCoKgAt head) none l

/-- The pattern backslash-b e.k backslash-dot optional, backslash-b
(src/pipelines/enrich_companies.py): a match needs either the optional
final dot followed by a boundary, or a boundary right after the k. -/
def matchEKAt (prev : Option Char) (l : List Char) : Bool :=
  boundaryBefore prev && Py.isPre ("e.k".data) l &&
    (let r := l.drop 3
     boundaryAfterAt r || ((r.head? = some '.') && boundaryAfterAt (r.drop 1)))

def searchEK (l : List Char) : Bool := scanMatch matchEKAt none l

/-- The compound patterns of _extract_legal_form_from_name in their
source order, first hit wins
(src/pipelines/enrich_companies.py lines 85 to 93). -/
def compoundFromName (low : List Char) : Option String :=
  if searchCoKg ("gmbh".data) low then some "GmbH & Co. KG"
  else if searchCoKg ("ag".data) low then some "AG & Co. KG"
  else if searchCoKg ("se".data) low then some "SE & Co. KG"
  else if searchWord ("kgaa".data) low then some "KGaA"
  else none

/-- The simple suffix patterns in their source order, first hit wins
(src/pipelines/enrich_companies.py lines 96 to 107). -/
def simpleFromName (low : List Char) : Option String :=
  if searchWord ("gmbh".data) low then some "GmbH"
  else if searchWord ("ag".data) low then some "AG"
  else if searchWord ("se".data) low then some "SE"
  else if searchWord ("ug".data) low then some "UG"
  else if searchWord ("ohg".data) low then some "OHG"
  else if searchWord ("kg".data) low then some "KG"
  else if searchEK low then some "e.K."
  else none

/-- _extract_legal_form_from_name (src/pipelines/enrich_companies.py
lines 75 to 110): compound patterns are checked before the simple
suffixes on the lowercased stripped name. -/
def extract_legal_form_from_name (name : Option String) : Option String :=
  match name with
  | none => none
  | some s =>
    if s = "" then none
    else
      let n := Py.strip s.data
      if n = [] then none
      else
        let low := Py.lowerStr n
        match compoundFromName low with
        | some c => some c
        | none => simpleFromName low

/-- Strip the quote characters (double and single quote) from both
ends, as str.strip with that character set does. -/
def quoteChars : List Char := ['"', Char.ofNat 39]

def stripSet (s : List Char) (l : List Char) : List Char :=
  ((l.dropWhile (fun c => s.contains c)).reverse.dropWhile (fun c => s.contains c)).reverse

/-- One attempt to match ws-parenthesized-ws at the current position
(the parenthetical regex of _canonicalize_legal_form). -/
def tryParen (l : List Char) : Option (List Char) :=
  let l1 := l.dropWhile Py.isSpaceChar
  match l1 with
  | '(' :: r =>
    let r1 := r.dropWhile (fun c => !(c == ')'))
    match r1 with
    | ')' :: r2 => some (r2.dropWhile Py.isSpaceChar)
    | _ => none
  | _ => none

/-- re.sub of the parenthetical pattern by a single space, scanning
left to right (fuelled; every match consumes at least two input
characters, so the input length bounds the steps). -/
def subParenAux : Nat → List Char → List Char
  | _, [] => []
  | 0, l => l
  | fuel + 1, c :: rest =>
    match tryParen (c :: rest) with
    | some remaining => ' ' :: subParenAux fuel remaining
    | none => c :: subParenAux fuel rest

def subParen (l : List Char) : List Char := subParenAux l.length l

/-- The shorts dictionary of _canonicalize_legal_form: exact-match
lookup from a normalized key to the canonical casing. -/
def shortsLookup (l : List Char) : Option String :=
  if l = ("gmbh".data) then some "GmbH"
  else if l = ("ag".data) then some "AG"
  else if l = ("se".data) then some "SE"
  else if l = ("ug".data) then some "UG"
  else if l = ("kgaa".data) then some "KGaA"
  else if l = ("kg".data) then some "KG"
  else if l = ("ohg".data) then some "OHG"
  else if l = ("e.k.".data) then some "e.K."
  else if l = ("ek".data) then some "e.K."
  else if l = ("gmbh & co. kg".data) then some "GmbH & Co. KG"
  else if l = ("ag & co. kg".data) then some "AG & Co. KG"
  else if l = ("se & co. kg".data) then some "SE & Co. KG"
  else none

/-- _canonicalize_legal_form (src/pipelines/enrich_companies.py lines
13 to 72): strip whitespace and quotes, drop parentheticals, then try
the long-phrase map in source order, the normalized shorts lookup, the
letters-and-dots token lookup, and finally return the cleaned text
itself (or none when empty). -/
def canonicalize_legal_form (raw : Option String) : Option String :=
  match raw with
  | none => none
  | some r =>
    if r = "" then none
    else
      let text := Py.strip (subParen (stripSet quoteChars (Py.strip r.data)))
      let low := Py.lowerStr text
      if Py.containsSub low ("gesellschaft mit beschränkter haftung".data) then some "GmbH"
      else if Py.containsSub low ("beschränkter haftung".data) then some "GmbH"
      else if Py.containsSub low ("aktiengesellschaft".data) then some "AG"
      else if Py.containsSub low ("unternehmergesellschaft".data) then some "UG"
      else if Py.containsSub low ("kommanditgesellschaft auf aktien".data) then some "KGaA"
      else if Py.containsSub low ("kommanditgesellschaft".data) then some "KG"
      else if Py.containsSub low ("offene handelsgesellschaft".data) then some "OHG"
      else if Py.containsSub low ("eingetragener kaufmann".data) then some "e.K."
      else if Py.containsSub low ("eingetragene kauffrau".data) then some "e.K."
      else if Py.containsSub low ("eingetragene kaufmann".data) then some "e.K."
      else
        let normalized := Py.pyReplace ("& co kg".data) ("& co. kg".data)
          (Py.strip (Py.collapseWs (Py.pyReplace (",".data) (" ".data) low)))
        match shortsLookup normalized with
        | some v => some v
        | none =>
          let token := low.filter (fun c => (('a' ≤ c && c ≤ 'z') || c == '.'))
          match shortsLookup token with
          | some v => some v
          | none => if text = [] then none else some (String.mk text)

/-- _derive_legal_form (src/pipelines/enrich_companies.py lines 113 to
119): prefer the form detected in the company name, else canonicalize
the supplied value. -/
def derive_legal_form (company_name provided : Option String) : Option String :=
  match extract_legal_form_from_name company_name with
  | some f => some f
  | none => canonicalize_legal_form provided

end LegalForm

namespace EnrichStep

/-- The final simple-suffix pattern of the copied
_extract_legal_form_from_name in src/pipelines/steps/enrich_companies.py
line 86: the question mark is escaped there, so the regex matches the
literal text e.k.? with a boundary before the e and a boundary after
the question mark.  The question mark is not a word character, so that
trailing boundary holds exactly when a word character follows. -/
def matchEKLitAt (prev : Option Char) (l : List Char) : Bool :=
  LegalForm.boundaryBefore prev && Py.isPre ("e.k.?".data) l &&
    (match (l.drop 5).head? with
     | some c => LegalForm.isWordChar c
     | none => false)

def searchEKLit (l : List Char) : Bool := LegalForm.scanMatch matchEKLitAt none l

/-- The simple-suffix chain of the step module
(src/pipelines/steps/enrich_companies.py lines 79 to 90): identical to
the pipelines module except for the final e.K. pattern. -/
def simpleFromName (low : List Char) : Option String :=
  if LegalForm.searchWord ("gmbh".data) low then some "GmbH"
  else if LegalForm.searchWord ("ag".data) low then some "AG"
  else if LegalForm.searchWord ("se".data) low then some "SE"
  else if LegalForm.searchWord ("ug".data) low then some "UG"
  else if LegalForm.searchWord ("ohg".data) low then some "OHG"
  else if LegalForm.searchWord ("kg".data) low then some "KG"
  else if searchEKLit low then some "e.K."
  else none

/-- _extract_legal_form_from_name of the step module
(src/pipelines/steps/enrich_companies.py lines 61 to 92). -/
def extract_legal_form_from_name (name : Option String) : Option String :=
  match name with
  | none => none
  | some s =>
    if s = "" then none
    else
      let n := Py.strip s.data
      if n = [] then none
      else
        let low := Py.lowerStr n
        match LegalForm.compoundFromName low with
        | some c => some c
        | none => simpleFromName low

/-- _derive_legal_form of the step module
(src/pipelines/steps/enrich_companies.py lines 95 to 99); its
_canonicalize_legal_form is a textually identical copy of the
pipelines module one, which is reused here. -/
def derive_legal_form (company_name provided : Option String) : Option String :=
  match extract_legal_form_from_name company_name with
  | some f => some f
  | none => LegalForm.canonicalize_legal_form provided

/-- A pending company handed to the enrichment step: the (id, name,
domain) triple from get_pending_companies. -/
structure PendingCompany where
  id : Nat
  name : Option String
  domain : Option String
deriving Repr, DecidableEq

/-- The enrichment dict returned by a successful fetch_func call,
restricted to the keys EnrichAndPersistCompanies.run reads.  The
list-valued entries are modelled as their serialized JSON text, which
is how update_enrichment stores them. -/
structure EnrichData where
  legalForm : Option String
  industries : Option String
  locationsGermany : Option String
  multinational : Bool
  website : Option String
  sizeEmployees : Option Int
  businessModelKeyPoints : Option String
  productsAndServices : Option String
  recentNews : Option String
deriving Repr, DecidableEq

/-- domain_to_store = domain or (extract_apex_domain(website) if
website else None) (src/pipelines/steps/enrich_companies.py line 174),
with the apex-domain extractor passed as an opaque function because it
delegates to the external tldextract library. -/
def domainToStore (apex : String → Option String) (c : PendingCompany)
    (data : EnrichData) : Option String :=
  if CompaniesRepo.truthyStr c.domain then c.domain
  else
    match data.website with
    | some w => if w = "" then none else apex w
    | none => none

/-- The fields dict built for save_company_enrichment
(src/pipelines/steps/enrich_companies.py lines 176 to 188): every key
is present; values come from the fetched dict. -/
def mkFields (apex : String → Option String) (c : PendingCompany) (data : EnrichData) :
    CompaniesRepo.EnrichFields :=
  { legal_form := some (CompaniesRepo.optText (derive_legal_form c.name data.legalForm))
    industries_json := some (CompaniesRepo.optText data.industries)
    locations_de_json := some (CompaniesRepo.optText data.locationsGermany)
    multinational := some (some (Db.SqlVal.int (if data.multinational then 1 else 0)))
    domain := some (CompaniesRepo.optText (domainToStore apex c data))
    website := some (CompaniesRepo.optText data.website)
    size_employees := some (CompaniesRepo.optInt data.sizeEmployees)
    business_model_json := some (CompaniesRepo.optText data.businessModelKeyPoints)
    products_json := some (CompaniesRepo.optText data.productsAndServices)
    recent_news_json := some (CompaniesRepo.optText data.recentNews) }

/-- Python str() of an optional string, as used by the f-string in the
error message: None prints as the text None. -/
def pyShowOptStr : Option String → String
  | none => "None"
  | some s => s

def previewItem (c : PendingCompany) : String :=
  toString c.id ++ ":" ++ pyShowOptStr c.name

/-- ", ".join of a list of strings. -/
def joinComma : List String → String
  | [] => ""
  | [x] => x
  | x :: xs => x ++ ", " ++ joinComma xs

/-- The RuntimeError message raised by the fail-fast guard
(src/pipelines/steps/enrich_companies.py lines 157 to 160). -/
def mkErrMsg (missing : List PendingCompany) : String :=
  "Company enrichment returned no data for " ++ toString missing.length ++
    " companies (e.g., " ++ joinComma ((missing.take 5).map previewItem) ++ "). Aborting."

/-- EnrichAndPersistCompanies.run
(src/pipelines/steps/enrich_companies.py lines 122 to 189).  Fetches
are pure; the thread-pool completion order is not modelled (results
are taken in submission order; the fail-fast check and the claims
below do not depend on the order).  A fetch that raises is already
folded into the none result by the _fetch wrapper.  The result pairs
the final table with the raised error message, if any: when some fetch
returned no dict, the RuntimeError is raised before any persistence,
so the table is returned unchanged. -/
def run (apex : String → Option String)
    (fetch : Nat → Option String → Option String → Option EnrichData)
    (companies : List PendingCompany) (t : CompaniesRepo.Table) (now : String) :
    CompaniesRepo.Table × Option String :=
  let results := companies.map (fun c => (c, fetch c.id c.name c.domain))
  let missing := (results.filter (fun r => r.2 = none)).map (fun r => r.1)
  if missing ≠ [] then
    (t, some (mkErrMsg missing))
  else
    (results.foldl
      (fun acc cr =>
        match cr.2 with
        | some data =>
          CompaniesRepo.update_enrichment acc cr.1.id (mkFields apex cr.1 data) now
        | none => acc) t,
      none)

end EnrichStep

namespace PersistPeopleStep

/-- A raw scraped record as the persist-people step consumes it: the
profile URL candidate (the Python or of LinkedIn_Profile and
profile_url, none when both are absent or falsy) and the values the
step computes for the upsert call.  The per-field computations (degree
extraction, name splitting, number parsing) transform values only and
never change which keyword names the call passes, so the computed
values are carried in the record directly. -/
structure Record where
  urlCandidate : Option String
  first_name : Db.Col
  last_name : Db.Col
  title_current : Db.Col
  email : Db.Col
  location_text : Db.Col
  connections_linkedin : Db.Col
  followers_linkedin : Db.Col
  website_info : Db.Col
  phone_info : Db.Col
  info_raw : Db.Col
  insights_text : Db.Col
  lookup_date : Db.Col
  source_name : Db.Col
  source_query : Db.Col
deriving Repr, DecidableEq

/-- The keyword-argument list of the upsert call in PersistPeople.run
(src/pipelines/steps/persist_people.py lines 127 to 144): the fifteen
upsert_person parameters plus search_query_id. -/
def upsertKwargs (url : String) (r : Record) (canonicalQueryId : Db.Col) :
    List (String × Db.Col) :=
  [("linkedin_profile", some (Db.SqlVal.text url)),
   ("first_name", r.first_name),
   ("last_name", r.last_name),
   ("title_current", r.title_current),
   ("email", r.email),
   ("location_text", r.location_text),
   ("connections_linkedin", r.connections_linkedin),
   ("followers_linkedin", r.followers_linkedin),
   ("website_info", r.website_info),
   ("phone_info", r.phone_info),
   ("info_raw", r.info_raw),
   ("insights_text", r.insights_text),
   ("lookup_date", r.lookup_date),
   ("source_name", r.source_name),
   ("source_query", r.source_query),
   ("search_query_id", canonicalQueryId)]

/-- The person-persistence loop of PersistPeople.run
(src/pipelines/steps/persist_people.py lines 72 to 164): a record
whose URL candidate is falsy or does not normalize is skipped;
otherwise the repository upsert wrapper is called with upsertKwargs.
The loop has no exception handler around the upsert, so an error
aborts the run with the people table as it stood. -/
def runAux (now : String) (cqid : Db.Col) :
    List Record → PeopleRepo.Table → PeopleRepo.Table × Option String
  | [], t => (t, none)
  | r :: rs, t =>
    match r.urlCandidate with
    | none => runAux now cqid rs t
    | some raw =>
      match DomainUtils.normalize_linkedin_profile_url raw with
      | none => runAux now cqid rs t
      | some url =>
        match PeopleRepo.upsert t now (upsertKwargs url r cqid) with
        | Except.error e => (t, some e)
        | Except.ok tid => runAux now cqid rs tid.1

/-- PersistPeople.run over the person upserts, starting from the
given people table. -/
def run (now : String) (cqid : Db.Col) (records : List Record)
    (t : PeopleRepo.Table) : PeopleRepo.Table × Option String :=
  runAux now cqid records t

/-- A concrete record with a canonical profile URL and no other data. -/
def cRec : Record :=
  { urlCandidate := some "https://linkedin.com/in/willa"
    first_name := none, last_name := none, title_current := none, email := none
    location_text := none, connections_linkedin := none, followers_linkedin := none
    website_info := none, phone_info := none, info_raw := none, insights_text := none
    lookup_date := none, source_name := none, source_query := none }

end PersistPeopleStep

namespace DataExtractor

/-- True when the suffix-stripping regex of
LinkedInDataExtractor.extract_name_from_title (src/data_extractor.py
line 457) matches at this position: optional whitespace, a separator
accepted by sepOk (dash or pipe there, pipe only in the metatags
variant at line 436), optional whitespace, then the case-insensitive
text LinkedIn.  Google result titles carry no newline, so the
trailing dot-star-dollar of the pattern always matches. -/
def lnkAt (sepOk : Char → Bool) (l : List Char) : Bool :=
  match l.dropWhile Py.isSpaceChar with
  | c :: rest => sepOk c && Py.isPreCI ("linkedin".data) (rest.dropWhile Py.isSpaceChar)
  | [] => false

/-- re.sub of the suffix pattern with the empty replacement: the text
before the leftmost match (the match runs to the end of the string). -/
def subLnk (sepOk : Char → Bool) : List Char → List Char
  | [] => []
  | c :: rest => if lnkAt sepOk (c :: rest) then [] else c :: subLnk sepOk rest

/-- The text before the first occurrence of sep (str.split on a
multi-character separator, first part). -/
def takeUntilSub (sep : List Char) : List Char → List Char
  | [] => []
  | c :: rest => if Py.isPre sep (c :: rest) then [] else c :: takeUntilSub sep rest

/-- One match of the parenthetical pattern of line 460 (optional
whitespace, an open parenthesis, non-close-parenthesis characters, a
close parenthesis, optional whitespace) anchored at this position:
returns the rest of the string after the match. -/
def parenMatch (l : List Char) : Option (List Char) :=
  match l.dropWhile Py.isSpaceChar with
  | '(' :: r =>
    match r.dropWhile (fun c => !(c = ')')) with
    | ')' :: r2 => some (r2.dropWhile Py.isSpaceChar)
    | _ => none
  | _ => none

/-- re.sub of the parenthetical pattern with a single-space
replacement; every match consumes at least its open parenthesis, so
the input length bounds the steps. -/
def subParenSp : Nat → List Char → List Char
  | 0, l => l
  | _, [] => []
  | fuel + 1, c :: rest =>
    match parenMatch (c :: rest) with
    | some r2 => ' ' :: subParenSp fuel r2
    | none => c :: subParenSp fuel rest

/-- The en dash and em dash of the long-title split at line 464. -/
def dashChar (c : Char) : Bool := c = '–' || c = '—'

/-- LinkedInDataExtractor.extract_name_from_title
(src/data_extractor.py lines 445 to 477). -/
def extract_name_from_title (title : List Char) : Option (List Char) :=
  if title = [] then none
  else
    let name1 := subLnk (fun c => c = '-' || c = '|') title
    let name2 := subParenSp name1.length name1
    let name3 :=
      if name2.any dashChar then Py.strip (name2.takeWhile (fun c => !dashChar c))
      else name2
    let name4 := Py.joinSpace (Py.pyWords name3)
    if 2 < name4.length ∧ name4.length < 200 then some name4 else none

/-- A pagemap metatag restricted to the keys
extract_name_from_metatags reads (src/data_extractor.py lines 424 to
441); an absent key reads as the empty-string default. -/
structure Metatag where
  profileFirstName : Option String
  profileLastName : Option String
  ogTitle : Option String
deriving Repr, DecidableEq

/-- LinkedInDataExtractor.extract_name_from_metatags
(src/data_extractor.py lines 419 to 443). -/
def extract_name_from_metatags : List Metatag → Option (List Char)
  | [] => none
  | tag :: rest =>
    let fn := Py.strip (tag.profileFirstName.getD "").data
    let ln := Py.strip (tag.profileLastName.getD "").data
    if fn ≠ [] ∧ ln ≠ [] then some (fn ++ [' '] ++ ln)
    else
      let og := Py.strip (tag.ogTitle.getD "").data
      if og ≠ [] then
        let name1 := subLnk (fun c => c = '|') og
        let name2 :=
          if Py.containsSub name1 (" - ".data) then
            Py.strip (takeUntilSub (" - ".data) name1)
          else name1
        if 2 < name2.length ∧ name2.length < 200 then some name2
        else extract_name_from_metatags rest
      else extract_name_from_metatags rest

/-- settings.linkedin_url_patterns
(src/config/settings.py lines 109 to 113). -/
def linkedinUrlPatterns : List String :=
  ["linkedin.com/in/", "de.linkedin.com/in/", "www.linkedin.com/in/"]

/-- LinkedInDataExtractor.clean_linkedin_url
(src/data_extractor.py lines 388 to 417). -/
def clean_linkedin_url (url : List Char) : Option (List Char) :=
  if url = [] then none
  else
    let u := Py.pyUrlparse url
    let clean1 := u.scheme ++ "://".data ++ u.netloc ++ u.path
    if linkedinUrlPatterns.any (fun p => Py.containsSub (Py.lowerStr clean1) p.data) then
      let c2 := Py.pyReplace ("de.linkedin.com".data) ("linkedin.com".data) clean1
      let c3 := Py.pyReplace ("www.linkedin.com".data) ("linkedin.com".data) c2
      let c4 :=
        if Py.isPre ("https://".data) c3 then c3
        else Py.pyReplace ("http://".data) ("https://".data) c3
      let u2 := Py.pyUrlparse c4
      let path := Py.rstripChar '/' u2.path
      let parts := (Py.splitOnChar '/' path).filter (fun p => !(p = []))
      if 2 ≤ parts.length ∧ parts.getD 0 [] = "in".data then
        some ("https://linkedin.com/in/".data ++ parts.getD 1 [])
      else some c4
    else none

/-- The fields of a Google search-result item that determine the name
and the company of the profile dict built by the non-AI path of
extract_raw_profile_data (src/data_extractor.py lines 706 to 813);
the snippet feeds only the summary and raw_data, which influence
neither. -/
structure ResultItem where
  title : String
  link : String
  snippet : String
  metatags : List Metatag
deriving Repr, DecidableEq

/-- The (name, company) projection of extract_raw_profile_data when
self.use_ai is false (src/data_extractor.py lines 706 to 813):
invalid URL or no extractable name yields None; the duplicate check
is taken with an empty seen set.  In this path line 773 sets
company = None and the fallback profile dict at lines 805 to 809
carries no company key, so the company component is always none. -/
def extractNameCompanyNoAI (item : ResultItem) : Option ((List Char) × Option (List Char)) :=
  match clean_linkedin_url item.link.data with
  | none => none
  | some _ =>
    let nm :=
      match extract_name_from_metatags item.metatags with
      | some n => some n
      | none => extract_name_from_title item.title.data
    match nm with
    | none => none
    | some name => some (name, none)

/-- The concrete search-result item of the spec example: the Jane Doe
title, an Experience snippet, no structured metatags. -/
def janeItem : ResultItem :=
  { title := "Jane Doe - Head of Sales at Daimler Buses - LinkedIn"
    link := "https://www.linkedin.com/in/jane-doe"
    snippet := "Experience: ElringKlinger. Head of Sales at Daimler Buses."
    metatags := [] }

end DataExtractor

namespace Cli

/-- A people row restricted to the columns cmd_dedupe_people touches:
the id, the linkedin_profile key, and the seventeen mergeable columns
of the SELECT at src/cli.py line 288. -/
structure PRow where
  id : Nat
  linkedin_profile : String
  first_name : Db.Col
  last_name : Db.Col
  title_current : Db.Col
  email : Db.Col
  location_text : Db.Col
  connections_linkedin : Db.Col
  followers_linkedin : Db.Col
  website_info : Db.Col
  phone_info : Db.Col
  info_raw : Db.Col
  insights_text : Db.Col
  lookup_date : Db.Col
  is_hot : Db.Col
  status : Db.Col
  notes : Db.Col
  last_interaction_date : Db.Col
  company_id : Db.Col
deriving Repr, DecidableEq

/-- The grouping key of src/cli.py lines 272 to 276: the normalized
URL, or the raw URL when normalization returns a falsy value (the
normalizer never returns an empty string, so falsy means None). -/
def normKey (url : String) : String :=
  match DomainUtils.normalize_linkedin_profile_url url with
  | some n => n
  | none => url

/-- The merge guard of line 298: val is not None and val != ''.  A
SQL integer never equals the Python empty string. -/
def goodVal : Db.Col → Bool
  | none => false
  | some (Db.SqlVal.text s) => !(s = "")
  | some (Db.SqlVal.int _) => true

/-- One column of the per-duplicate UPDATE (lines 296 to 302): when
the duplicate value passes the guard the column becomes
COALESCE(primary, dup); otherwise the column is not listed in the
UPDATE and keeps the primary value. -/
def mergeCol (pv dv : Db.Col) : Db.Col :=
  if goodVal dv then Db.coalesce pv dv else pv

/-- The whole per-duplicate UPDATE applied to the primary row p with
the duplicate row d (lines 288 to 302): every mergeable column merged,
id and linkedin_profile untouched. -/
def mergeRow (p d : PRow) : PRow :=
  { p with
    first_name := mergeCol p.first_name d.first_name
    last_name := mergeCol p.last_name d.last_name
    title_current := mergeCol p.title_current d.title_current
    email := mergeCol p.email d.email
    location_text := mergeCol p.location_text d.location_text
    connections_linkedin := mergeCol p.connections_linkedin d.connections_linkedin
    followers_linkedin := mergeCol p.followers_linkedin d.followers_linkedin
    website_info := mergeCol p.website_info d.website_info
    phone_info := mergeCol p.phone_info d.phone_info
    info_raw := mergeCol p.info_raw d.info_raw
    insights_text := mergeCol p.insights_text d.insights_text
    lookup_date := mergeCol p.lookup_date d.lookup_date
    is_hot := mergeCol p.is_hot d.is_hot
    status := mergeCol p.status d.status
    notes := mergeCol p.notes d.notes
    last_interaction_date := mergeCol p.last_interaction_date d.last_interaction_date
    company_id := mergeCol p.company_id d.company_id }

/-- Accessors of the seventeen mergeable columns, in SELECT order. -/
def mergeAccessors : List (PRow → Db.Col) :=
  [(fun r => r.first_name), (fun r => r.last_name), (fun r => r.title_current),
   (fun r => r.email), (fun r => r.location_text), (fun r => r.connections_linkedin),
   (fun r => r.followers_linkedin), (fun r => r.website_info), (fun r => r.phone_info),
   (fun r => r.info_raw), (fun r => r.insights_text), (fun r => r.lookup_date),
   (fun r => r.is_hot), (fun r => r.status), (fun r => r.notes),
   (fun r => r.last_interaction_date), (fun r => r.company_id)]

/-- The end-to-end value of a mergeable column after all duplicates
are folded in: the primary value when non-null, else the first
duplicate value (in fold order) that passes the merge guard. -/
def firstGoodFrom (pv : Db.Col) (vs : List Db.Col) : Db.Col :=
  Db.coalesce pv ((vs.filter goodVal).head?.join)

/-- The (id, linkedin_profile) pair of the initial SELECT at
src/cli.py line 269. -/
def toEntry (r : PRow) : Nat × String := (r.id, r.linkedin_profile)

/-- Appending an entry to its key group, preserving first-seen key
order (dict.setdefault followed by append, lines 271 to 276). -/
def addEntry : List (String × List (Nat × String)) → String → (Nat × String) →
    List (String × List (Nat × String))
  | [], k, e => [(k, [e])]
  | g :: gs, k, e => if g.1 = k then (g.1, g.2 ++ [e]) :: gs else g :: addEntry gs k e

/-- The norm_to_ids mapping (lines 271 to 276): rows in table order,
each appended to its normKey group. -/
def buildGroups (rows : List PRow) : List (String × List (Nat × String)) :=
  rows.foldl (fun gs r => addEntry gs (normKey r.linkedin_profile) (toEntry r)) []

/-- The people-table effect of one duplicate iteration of the inner
loop (lines 286 to 310): read the duplicate row by id, merge its
columns into the primary, delete the duplicate.  The duplicate id is
always present when this runs (its absence would crash the Python). -/
def processDupRows (pid : Nat) (rows : List PRow) (did : Nat) : List PRow :=
  match rows.find? (fun r => r.id = did) with
  | none => rows
  | some d =>
    (rows.map (fun r => if r.id = pid then mergeRow r d else r)).filter
      (fun r => !(r.id = did))

/-- One duplicate iteration on the full state: the people effect plus
the outreach_messages repoint of line 305 (each message keyed by the
duplicate raw URL is repointed to the normalized URL). -/
def processDup (pid : Nat) (normUrl : String) (st : List PRow × List String)
    (e : Nat × String) : List PRow × List String :=
  (processDupRows pid st.1 e.1,
    st.2.map (fun s => if s = e.2 then normUrl else s))

/-- One group iteration (lines 278 to 315): groups of at most one
entry are skipped; otherwise the entries are sorted ascending by id
(list.sort with key x[0]), the smallest id becomes the primary, every
later entry is merged and deleted, and finally the primary
linkedin_profile is set to the normalized URL if different. -/
def processGroup (st : List PRow × List String) (normUrl : String)
    (entries : List (Nat × String)) : List PRow × List String :=
  if entries.length ≤ 1 then st
  else
    let sorted := entries.insertionSort (fun a b => a.1 ≤ b.1)
    let pid := (sorted.headD (0, "")).1
    let st2 := sorted.tail.foldl (processDup pid normUrl) st
    (st2.1.map (fun r =>
        if r.id = pid ∧ ¬(r.linkedin_profile = normUrl) then
          { r with linkedin_profile := normUrl }
        else r),
      st2.2)

/-- The state after every group has been processed, when no UNIQUE
violation occurs along the way: the committed effect of
cmd_dedupe_people's loop. -/
def mergeGroups (people : List PRow) (outreach : List String) :
    List PRow × List String :=
  (buildGroups people).foldl (fun st g => processGroup st g.1 g.2) (people, outreach)

/-- The UNIQUE-constraint test of the final primary UPDATE
(src/cli.py lines 312 to 315): the primary profile is read back; when
it already equals the normalized URL no UPDATE runs; otherwise the
UPDATE raises sqlite3.IntegrityError exactly when some row already
holds the normalized URL (people.linkedin_profile is UNIQUE in
src/db/schema.py). -/
def primaryConflict (rows : List PRow) (pid : Nat) (normUrl : String) : Bool :=
  match rows.find? (fun r => r.id = pid) with
  | none => false
  | some cur =>
    if cur.linkedin_profile = normUrl then false
    else rows.any (fun r => r.linkedin_profile = normUrl)

/-- Whether processing this group raises the IntegrityError: the check
of primaryConflict evaluated on the people rows as they stand after
the group's duplicates are merged and deleted. -/
def groupConflict (st : List PRow × List String) (normUrl : String)
    (entries : List (Nat × String)) : Bool :=
  if entries.length ≤ 1 then false
  else
    let sorted := entries.insertionSort (fun a b => a.1 ≤ b.1)
    let pid := (sorted.headD (0, "")).1
    let st2 := sorted.tail.foldl (processDup pid normUrl) st
    primaryConflict st2.1 pid normUrl

/-- The group loop of cmd_dedupe_people with the IntegrityError of the
final primary UPDATE surfaced: the first conflicting group aborts the
remainder of the run. -/
def runGroups : List (String × List (Nat × String)) → (List PRow × List String) →
    Except String (List PRow × List String)
  | [], st => Except.ok st
  | g :: gs, st =>
    if groupConflict st g.1 g.2 then
      Except.error "UNIQUE constraint failed: people.linkedin_profile"
    else runGroups gs (processGroup st g.1 g.2)

/-- cmd_dedupe_people (src/cli.py lines 261 to 317) as a transformation
of the people rows and the outreach_messages linkedin_profile
references.  The final UPDATE people SET linkedin_profile at line 315
raises sqlite3.IntegrityError when another row already holds the
normalized URL; the exception is uncaught, conn.commit() at line 316
never runs, and the implicit transaction is rolled back when the
process dies, so the error outcome carries the original tables
unchanged. -/
def cmd_dedupe_people (people : List PRow) (outreach : List String) :
    (List PRow × List String) × Option String :=
  match runGroups (buildGroups people) (people, outreach) with
  | Except.ok st => (st, none)
  | Except.error e => ((people, outreach), some e)

/-- Ascending id order on rows (the sort key of line 282, lifted to
rows for the statements below). -/
def idLe (a b : PRow) : Prop := a.id ≤ b.id

instance : DecidableRel idLe := fun a b => Nat.decLe a.id b.id

instance : IsTotal PRow idLe := ⟨fun a b => Nat.le_total a.id b.id⟩

instance : IsTrans PRow idLe := ⟨fun _ _ _ => Nat.le_trans⟩

/-- Counterexample rows: two rows normalizing to the same canonical
URL; the primary has a NULL first_name, the duplicate a non-null
empty-string first_name. -/
def cexA : PRow :=
  { id := 1, linkedin_profile := "https://linkedin.com/in/anna"
    first_name := none, last_name := none, title_current := none, email := none
    location_text := none, connections_linkedin := none, followers_linkedin := none
    website_info := none, phone_info := none, info_raw := none, insights_text := none
    lookup_date := none, is_hot := some (Db.SqlVal.int 0), status := none, notes := none
    last_interaction_date := none, company_id := none }

def cexB : PRow :=
  { id := 2, linkedin_profile := "https://www.linkedin.com/in/ANNA"
    first_name := some (Db.SqlVal.text "")
    last_name := some (Db.SqlVal.text "Schmidt"), title_current := none, email := none
    location_text := none, connections_linkedin := none, followers_linkedin := none
    website_info := none, phone_info := none, info_raw := none, insights_text := none
    lookup_date := none, is_hot := some (Db.SqlVal.int 0), status := none, notes := none
    last_interaction_date := none, company_id := none }

/-- Rows exhibiting the IntegrityError of the final primary UPDATE:
two rows whose canonical URL is https://linkedin.com/in/a/b, plus an
unrelated row that already carries that very string as its raw
profile (its own canonical URL is https://linkedin.com/in/a, so it
belongs to a different group). -/
def cexD : PRow :=
  { id := 10, linkedin_profile := "https://linkedin.com/in/a%2Fb"
    first_name := none, last_name := none, title_current := none, email := none
    location_text := none, connections_linkedin := none, followers_linkedin := none
    website_info := none, phone_info := none, info_raw := none, insights_text := none
    lookup_date := none, is_hot := some (Db.SqlVal.int 0), status := none, notes := none
    last_interaction_date := none, company_id := none }

def cexE : PRow :=
  { id := 11, linkedin_profile := "https://www.linkedin.com/in/a%2Fb"
    first_name := none, last_name := none, title_current := none, email := none
    location_text := none, connections_linkedin := none, followers_linkedin := none
    website_info := none, phone_info := none, info_raw := none, insights_text := none
    lookup_date := none, is_hot := some (Db.SqlVal.int 0), status := none, notes := none
    last_interaction_date := none, company_id := none }

def cexF : PRow :=
  { id := 12, linkedin_profile := "https://linkedin.com/in/a/b"
    first_name := none, last_name := none, title_current := none, email := none
    location_text := none, connections_linkedin := none, followers_linkedin := none
    website_info := none, phone_info := none, info_raw := none, insights_text := none
    lookup_date := none, is_hot := some (Db.SqlVal.int 0), status := none, notes := none
    last_interaction_date := none, company_id := none }

/-- An unrelated third row with a different canonical identity. -/
def cexC : PRow :=
  { id := 3, linkedin_profile := "https://linkedin.com/in/ben"
    first_name := some (Db.SqlVal.text "Ben"), last_name := none, title_current := none
    email := none, location_text := none, connections_linkedin := none
    followers_linkedin := none, website_info := none, phone_info := none
    info_raw := none, insights_text := none, lookup_date := none
    is_hot := some (Db.SqlVal.int 0), status := none, notes := none
    last_interaction_date := none, company_id := none }

end Cli


-- Sanity checks: the embedded primitives and the normalizer on concrete inputs.

example : Py.strip " ab ".data = "ab".data := by decide

example : Py.pyReplace "www.".data [] "www.linkedin.com".data = "linkedin.com".data := by decide

example : Py.unquote "John%2DDoe".data = "John-Doe".data := by decide

example : Py.unquote "a%2Fb".data = "a/b".data := by decide

example : Py.containsSub "de.linkedin.com".data "linkedin.com".data = true := by decide

example : Py.splitOnChar '/' "/in/jane".data = ["".data, "in".data, "jane".data] := by decide

example : Py.joinSpace (Py.pyWords "  a   bc ".data) = "a bc".data := by decide

example :
    Py.pyUrlparse "http://de.linkedin.com/in/John-Doe/".data =
      { scheme := "http".data, netloc := "de.linkedin.com".data,
        path := "/in/John-Doe/".data } := by decide

example :
    Py.pyUrlparse "linkedin.com/in/x".data =
      { scheme := [], netloc := [], path := "linkedin.com/in/x".data } := by decide

example :
    DomainUtils.normalize_linkedin_profile_url "http://de.linkedin.com/in/John-Doe/" =
      some "https://linkedin.com/in/john-doe" := by decide

example :
    DomainUtils.normalize_linkedin_profile_url "https://www.linkedin.com/in/john-doe" =
      some "https://linkedin.com/in/john-doe" := by decide

example : DomainUtils.normalize_linkedin_profile_url "" = none := by decide

example : DomainUtils.normalize_linkedin_profile_url "https://linkedin.com/feed/x" = none := by decide

example :
    DomainUtils.normalize_linkedin_profile_url "https://linkedin.com/in/a%2Fb" =
      some "https://linkedin.com/in/a/b" := by decide

example :
    DomainUtils.normalize_linkedin_profile_url "https://linkedin.com/in/a/b" =
      some "https://linkedin.com/in/a" := by decide

-- Helper lemmas on the character-list primitives, used by the
-- normalizer characterization.

theorem py_takeWhile_all {p : Char → Bool} {l : List Char}
    (h : ∀ c ∈ l, p c = true) : l.takeWhile p = l := by
  induction l with
  | nil => rfl
  | cons c rest ih =>
    have hc : p c = true := h c (by simp)
    have ht := ih (fun d hd => h d (by simp [hd]))
    simp [List.takeWhile_cons, hc, ht]

theorem py_takeWhile_append {p : Char → Bool} {l₁ : List Char} (l₂ : List Char)
    (h : ∀ c ∈ l₁, p c = true) :
    (l₁ ++ l₂).takeWhile p = l₁ ++ l₂.takeWhile p := by
  induction l₁ with
  | nil => rfl
  | cons c rest ih =>
    have hc : p c = true := h c (by simp)
    have ht := ih (fun d hd => h d (by simp [hd]))
    simp [List.takeWhile_cons, hc, ht]

theorem py_splitOnChar_no_sep {sep : Char} {l : List Char}
    (h : ∀ c ∈ l, ¬(c = sep)) : Py.splitOnChar sep l = [l] := by
  induction l with
  | nil => rfl
  | cons c rest ih =>
    have hc : (c == sep) = false := by
      simpa using h c (by simp)
    have ht := ih (fun d hd => h d (by simp [hd]))
    simp [Py.splitOnChar, hc, ht]

theorem py_splitOnChar_cons_sep (sep : Char) (r : List Char) :
    Py.splitOnChar sep (sep :: r) = [] :: Py.splitOnChar sep r := by
  simp [Py.splitOnChar]

theorem py_rstripChar_concat {sep c : Char} {l : List Char} (h : (c == sep) = false) :
    Py.rstripChar sep (l ++ [c]) = l ++ [c] := by
  simp [Py.rstripChar, List.dropWhile_cons, h]

theorem py_rstripChar_concat_sep {sep : Char} {l : List Char} :
    Py.rstripChar sep (l ++ [sep]) = Py.rstripChar sep l := by
  simp [Py.rstripChar, List.dropWhile_cons]

theorem py_unquoteAux_no_pct {l : List Char} (h : ∀ c ∈ l, ¬(c = '%')) :
    ∀ fuel, Py.unquoteAux fuel l = l := by
  induction l with
  | nil => intro fuel; cases fuel <;> rfl
  | cons c rest ih =>
    intro fuel
    cases fuel with
    | zero => rfl
    | succ fuel =>
      have hc : ¬(c = '%') := h c (by simp)
      have ht := ih (fun d hd => h d (by simp [hd])) fuel
      simp [Py.unquoteAux, hc, ht]

theorem py_unquote_no_pct {l : List Char} (h : ∀ c ∈ l, ¬(c = '%')) :
    Py.unquote l = l := py_unquoteAux_no_pct h _

theorem py_dropWhile_of_all_false {p : Char → Bool} {l : List Char}
    (h : ∀ c ∈ l, p c = false) : l.dropWhile p = l := by
  cases l with
  | nil => rfl
  | cons c rest => simp [List.dropWhile_cons, h c (by simp)]

theorem py_strip_of_no_space {l : List Char}
    (h : ∀ c ∈ l, Py.isSpaceChar c = false) : Py.strip l = l := by
  rw [Py.strip, py_dropWhile_of_all_false h,
    py_dropWhile_of_all_false (fun c hc => h c (List.mem_reverse.mp hc)),
    List.reverse_reverse]

theorem py_lowerStr_fixed {l : List Char} (h : ∀ c ∈ l, Py.lowerChar c = c) :
    Py.lowerStr l = l := by
  induction l with
  | nil => rfl
  | cons c rest ih =>
    have ht := ih (fun d hd => h d (by simp [hd]))
    simp only [Py.lowerStr, List.map_cons] at ht ⊢
    rw [h c (by simp), ht]

theorem py_filter_all_true {p : Char → Bool} {l : List Char}
    (h : ∀ c ∈ l, p c = true) : l.filter p = l := by
  induction l with
  | nil => rfl
  | cons c rest ih =>
    have ht := ih (fun d hd => h d (by simp [hd]))
    simp [List.filter_cons, h c (by simp), ht]

theorem py_cutParams_no_semi {l : List Char} (h : ∀ c ∈ l, ¬(c = ';')) :
    Py.cutParams l = l := by
  induction l with
  | nil => rfl
  | cons c rest ih =>
    have hc : ¬(c = ';' ∧ ¬('/' ∈ rest)) := fun hp => h c (by simp) hp.1
    rw [Py.cutParams, if_neg hc, ih (fun d hd => h d (by simp [hd]))]

-- Characterization of the normalizer on structured profile URLs.

theorem canonSlug_plain {s : List Char} (h : DomainUtils.plainSlug s = true) :
    DomainUtils.canonSlug s = s := by
  have hall : ∀ c ∈ s, DomainUtils.plainChar c = true := by
    intro c hc
    have := (Bool.and_eq_true _ _).mp h |>.2
    exact List.all_eq_true.mp this c hc
  have hchar : ∀ c ∈ s, c.toNat < 128 ∧ Py.isSpaceChar c = false ∧
      Py.lowerChar c = c ∧ ¬(c = '%') := by
    intro c hc
    have hp := hall c hc
    rw [DomainUtils.plainChar] at hp
    have h1 := (Bool.and_eq_true _ _).mp hp
    have h2 := (Bool.and_eq_true _ _).mp h1.1
    have h3 := (Bool.and_eq_true _ _).mp h2.1
    refine ⟨by simpa using h3.1, by simpa using h3.2, by simpa using h2.2, ?_⟩
    intro hcp
    have := h1.2
    rw [hcp] at this
    simp at this
  rw [DomainUtils.canonSlug]
  rw [py_unquote_no_pct (fun c hc => (hchar c hc).2.2.2)]
  rw [DomainUtils.nfkc]
  rw [py_strip_of_no_space (fun c hc => (hchar c hc).2.1)]
  rw [py_lowerStr_fixed (fun c hc => (hchar c hc).2.2.1)]
  refine py_filter_all_true ?_
  intro c hc
  have hlt := (hchar c hc).1
  have hz : ∀ z : Char, 128 ≤ z.toNat → (c == z) = false := by
    intro z hzn
    rw [beq_eq_false_iff_ne]
    intro hcz
    rw [hcz] at hlt
    omega
  simp [hz DomainUtils.zwsp (by decide), hz DomainUtils.zwnj (by decide),
    hz DomainUtils.zwj (by decide)]

theorem normalizeList_core (u hostL slug : List Char)
    (hu : u ≠ [])
    (hnet : (Py.pyUrlparse u).netloc = hostL)
    (hpath : Py.rstripChar '/' (Py.pyUrlparse u).path = '/' :: 'i' :: 'n' :: '/' :: slug)
    (hch1 : DomainUtils.cleanHost hostL ≠ [])
    (hch2 : Py.containsSub (DomainUtils.cleanHost hostL) "linkedin.com".data = true)
    (hslugne : slug ≠ [])
    (hsafe : ∀ c ∈ slug, ¬(c = '/')) :
    DomainUtils.normalizeList u =
      some (DomainUtils.canonPre ++ DomainUtils.canonSlug slug) := by
  have hsplit : Py.splitOnChar '/' ('/' :: 'i' :: 'n' :: '/' :: slug) =
      [[], ['i', 'n'], slug] := by
    have h1 : Py.splitOnChar '/' slug = [slug] := py_splitOnChar_no_sep hsafe
    have e1 : Py.splitOnChar '/' ('/' :: slug) = [] :: [slug] := by
      rw [py_splitOnChar_cons_sep, h1]
    have e2 : Py.splitOnChar '/' ('n' :: '/' :: slug) = ['n'] :: [slug] := by
      rw [Py.splitOnChar, if_neg (by decide), e1]
    have e3 : Py.splitOnChar '/' ('i' :: 'n' :: '/' :: slug) = ['i', 'n'] :: [slug] := by
      rw [Py.splitOnChar, if_neg (by decide), e2]
    rw [py_splitOnChar_cons_sep, e3]
  have hfilter :
      (Py.splitOnChar '/' ('/' :: 'i' :: 'n' :: '/' :: slug)).filter (fun p => !(p == [])) =
        [['i', 'n'], slug] := by
    rw [hsplit]
    have hne : (slug == []) = false := by
      rw [beq_eq_false_iff_ne]; exact hslugne
    simp [List.filter_cons, hne, hslugne]
  have hpre : Py.isPre "/in/".data ('/' :: 'i' :: 'n' :: '/' :: slug) = true := rfl
  rw [DomainUtils.normalizeList]
  rw [if_neg hu]
  simp only [hnet, hpath]
  rw [if_neg hch1]
  rw [if_neg (by rw [hch2, hpre]; decide)]
  rw [hfilter]
  rw [if_pos ⟨by simp, rfl⟩]
  simp

theorem normalizeList_mk_aux (u hostL slug : List Char) (trail : Bool)
    (hu : u ≠ [])
    (hnet : (Py.pyUrlparse u).netloc = hostL)
    (hpath : (Py.pyUrlparse u).path =
      Py.cutParams ('/' :: 'i' :: 'n' :: '/' ::
        ((slug ++ (if trail then ['/'] else [])).takeWhile (fun c => ! Py.queryOrFrag c))))
    (hch1 : DomainUtils.cleanHost hostL ≠ [])
    (hch2 : Py.containsSub (DomainUtils.cleanHost hostL) "linkedin.com".data = true)
    (hslug : DomainUtils.slugSafe slug = true) :
    DomainUtils.normalizeList u =
      some (DomainUtils.canonPre ++ DomainUtils.canonSlug slug) := by
  have hparts := (Bool.and_eq_true _ _).mp hslug
  have hslugne : slug ≠ [] := by
    have := hparts.1
    simpa using this
  have hsafe3 : ∀ c ∈ slug, ¬(c = '/') ∧ ¬(c = '?') ∧ ¬(c = '#') ∧ ¬(c = ';') := by
    intro c hc
    have := List.all_eq_true.mp hparts.2 c hc
    simp only [Bool.not_eq_true'] at this
    constructor
    · intro hcc; rw [hcc] at this; simp at this
    constructor
    · intro hcc; rw [hcc] at this; simp at this
    constructor
    · intro hcc; rw [hcc] at this; simp at this
    · intro hcc; rw [hcc] at this; simp at this
  have htw : (slug ++ (if trail then ['/'] else [])).takeWhile
      (fun c => ! Py.queryOrFrag c) = slug ++ (if trail then ['/'] else []) := by
    rw [py_takeWhile_append]
    · cases trail <;> rfl
    · intro c hc
      have h3 := hsafe3 c hc
      have hq : (c == '?') = false := by rw [beq_eq_false_iff_ne]; exact h3.2.1
      have hn : (c == '#') = false := by rw [beq_eq_false_iff_ne]; exact h3.2.2.1
      simp [Py.queryOrFrag, hq, hn]
  have hcut : Py.cutParams ('/' :: 'i' :: 'n' :: '/' ::
      (slug ++ (if trail then ['/'] else []))) =
      '/' :: 'i' :: 'n' :: '/' :: (slug ++ (if trail then ['/'] else [])) := by
    refine py_cutParams_no_semi ?_
    intro c hc
    simp only [List.mem_cons, List.mem_append] at hc
    rcases hc with h | h | h | h | h | h
    · rw [h]; decide
    · rw [h]; decide
    · rw [h]; decide
    · rw [h]; decide
    · exact (hsafe3 c h).2.2.2
    · cases trail with
      | true =>
        simp at h
        rw [h]; decide
      | false => simp at h
  have hrstrip : Py.rstripChar '/' ('/' :: 'i' :: 'n' :: '/' ::
      (slug ++ (if trail then ['/'] else []))) = '/' :: 'i' :: 'n' :: '/' :: slug := by
    obtain ⟨s2, c, hs⟩ := (List.eq_nil_or_concat slug).resolve_left hslugne
    rw [List.concat_eq_append] at hs
    subst hs
    have hc : (c == '/') = false := by
      rw [beq_eq_false_iff_ne]
      exact (hsafe3 c (by simp)).1
    cases trail with
    | true =>
      have e : '/' :: 'i' :: 'n' :: '/' :: ((s2 ++ [c]) ++ ['/']) =
          (('/' :: 'i' :: 'n' :: '/' :: (s2 ++ [c])) ++ ['/']) := by simp
      rw [if_pos rfl, e, py_rstripChar_concat_sep]
      have e2 : '/' :: 'i' :: 'n' :: '/' :: (s2 ++ [c]) =
          (('/' :: 'i' :: 'n' :: '/' :: s2) ++ [c]) := by simp
      rw [e2, py_rstripChar_concat hc]
    | false =>
      have e2 : '/' :: 'i' :: 'n' :: '/' :: ((s2 ++ [c]) ++ []) =
          (('/' :: 'i' :: 'n' :: '/' :: s2) ++ [c]) := by simp
      rw [if_neg (by simp), e2, py_rstripChar_concat hc]
      simp
  refine normalizeList_core u hostL slug hu hnet ?_ hch1 hch2 hslugne
    (fun c hc => (hsafe3 c hc).1)
  rw [hpath, htw, hcut, hrstrip]

theorem plainChar_props {c : Char} (h : DomainUtils.plainChar c = true) :
    c.toNat < 128 ∧ Py.isSpaceChar c = false ∧ Py.lowerChar c = c ∧
      (c == '%') = false ∧ (c == '/') = false ∧ (c == '?') = false ∧
      (c == '#') = false ∧ (c == ';') = false := by
  rw [DomainUtils.plainChar] at h
  have h1 := (Bool.and_eq_true _ _).mp h
  have h2 := (Bool.and_eq_true _ _).mp h1.1
  have h3 := (Bool.and_eq_true _ _).mp h2.1
  have h4 : ((c == '%') || (c == '/') || (c == '?') || (c == '#') || (c == ';')) = false := by
    simpa using h1.2
  have h5 := (Bool.or_eq_false_iff).mp h4
  have h6 := (Bool.or_eq_false_iff).mp h5.1
  have h7 := (Bool.or_eq_false_iff).mp h6.1
  have h8 := (Bool.or_eq_false_iff).mp h7.1
  exact ⟨by simpa using h3.1, by simpa using h3.2, by simpa using h2.2,
    h8.1, h8.2, h7.2, h6.2, h5.2⟩

theorem normalize_mk_variants (scheme host : String) (slug : List Char) (trail : Bool)
    (hs : scheme ∈ DomainUtils.schemeVariants)
    (hh : host ∈ DomainUtils.hostVariants)
    (hslug : DomainUtils.slugSafe slug = true) :
    DomainUtils.normalizeList (DomainUtils.mkProfileUrl scheme.data host.data slug trail) =
      some (DomainUtils.canonPre ++ DomainUtils.canonSlug slug) := by
  fin_cases hs <;> fin_cases hh <;>
    first
    | exact normalizeList_mk_aux _ "linkedin.com".data slug trail
        (List.cons_ne_nil _ _) rfl rfl (by decide) (by decide) hslug
    | exact normalizeList_mk_aux _ "www.linkedin.com".data slug trail
        (List.cons_ne_nil _ _) rfl rfl (by decide) (by decide) hslug
    | exact normalizeList_mk_aux _ "de.linkedin.com".data slug trail
        (List.cons_ne_nil _ _) rfl rfl (by decide) (by decide) hslug
    | exact normalizeList_mk_aux _ "fr.linkedin.com".data slug trail
        (List.cons_ne_nil _ _) rfl rfl (by decide) (by decide) hslug
    | exact normalizeList_mk_aux _ "uk.linkedin.com".data slug trail
        (List.cons_ne_nil _ _) rfl rfl (by decide) (by decide) hslug
    | exact normalizeList_mk_aux _ "at.linkedin.com".data slug trail
        (List.cons_ne_nil _ _) rfl rfl (by decide) (by decide) hslug
    | exact normalizeList_mk_aux _ "ch.linkedin.com".data slug trail
        (List.cons_ne_nil _ _) rfl rfl (by decide) (by decide) hslug
    | exact normalizeList_mk_aux _ "es.linkedin.com".data slug trail
        (List.cons_ne_nil _ _) rfl rfl (by decide) (by decide) hslug

theorem db_coalesce_ite (a b : Db.Col) :
    Db.coalesce a b = if a = none then b else a := by
  cases a <;> simp [Db.coalesce]

theorem db_coalesce_some_default (a b : Db.Col) (v : Db.SqlVal) :
    Db.coalesce (Db.coalesce a (some v)) b = if a = none then some v else a := by
  cases a <;> simp [Db.coalesce]

theorem people_find_map_key (rows : List PeopleRepo.Row) (key : String)
    (r2 : PeopleRepo.Row) (h2 : r2.linkedin_profile = key) :
    ((rows.map (fun q => if q.linkedin_profile = key then r2 else q)).find?
        (fun q => q.linkedin_profile = key)) =
      (rows.find? (fun q => q.linkedin_profile = key)).map (fun _ => r2) := by
  induction rows with
  | nil => rfl
  | cons q rest ih =>
    by_cases hq : q.linkedin_profile = key
    · simp [List.find?_cons, hq, h2]
    · simp [List.find?_cons, hq, ih]

theorem people_map_filter_nil (rows : List PeopleRepo.Row) (key : String)
    (r2 : PeopleRepo.Row)
    (hall : ∀ q ∈ rows, ¬(q.linkedin_profile = key)) :
    ((rows.map (fun q => if q.linkedin_profile = key then r2 else q)).filter
        (fun q => q.linkedin_profile = key)) = [] := by
  induction rows with
  | nil => rfl
  | cons q rest ih =>
    have hq := hall q (List.mem_cons_self q rest)
    have hrest : ∀ d ∈ rest, ¬(d.linkedin_profile = key) :=
      fun d hd => hall d (List.mem_cons_of_mem q hd)
    simp [hq, ih hrest]

theorem people_map_append_filter (rows : List PeopleRepo.Row) (key : String)
    (row1 r2 : PeopleRepo.Row)
    (hall : ∀ q ∈ rows, ¬(q.linkedin_profile = key))
    (h1 : row1.linkedin_profile = key) (h2 : r2.linkedin_profile = key) :
    (((rows ++ [row1]).map (fun q => if q.linkedin_profile = key then r2 else q)).filter
        (fun q => q.linkedin_profile = key)) = [r2] := by
  rw [List.map_append, List.filter_append, people_map_filter_nil rows key r2 hall]
  simp [h1, h2]

/-- Counterexample for claim C1: the person upsert does not preserve an
existing non-null value when the incoming value is non-null (the SQL
is COALESCE(excluded.col, people.col), incoming value first), and the
lookup_date column is overwritten with the current timestamp even when
the incoming lookup_date is null (excluded.lookup_date is the
evaluated default expression, never NULL).  The first upsert stores
name Anna and lookup date 1999-01-01; a second upsert of the same
identity with name Beate and null lookup date leaves name Beate and a
lookup date equal to the second call timestamp. -/
theorem claim_C1_counterexample :
    ((PeopleRepo.upsert_person PeopleRepo.emptyTable PeopleRepo.cexParams1
        "2026-01-01").1.rows.map (fun r => (r.first_name, r.lookup_date))) =
      [(some (Db.SqlVal.text "Anna"), some (Db.SqlVal.text "1999-01-01"))] ∧
    ((PeopleRepo.upsert_person
        (PeopleRepo.upsert_person PeopleRepo.emptyTable PeopleRepo.cexParams1 "2026-01-01").1
        PeopleRepo.cexParams2 "2026-02-02").1.rows.map
          (fun r => (r.first_name, r.lookup_date))) =
      [(some (Db.SqlVal.text "Beate"), some (Db.SqlVal.text "2026-02-02"))] ∧
    (some (Db.SqlVal.text "Beate") : Db.Col) ≠ some (Db.SqlVal.text "Anna") ∧
    (some (Db.SqlVal.text "2026-02-02") : Db.Col) ≠ some (Db.SqlVal.text "1999-01-01") :=
  ⟨by decide, by decide, by decide, by decide⟩

/-- Claim C1 (amended): on a person upsert that conflicts on
linkedin_profile, every column is updated by coalesce with the
incoming value first: a non-null incoming value wins, including over
an existing non-null stored value, while a null incoming value leaves
the stored value unchanged (so a non-null stored value is never
overwritten by a null incoming value); lookup_date is the exception in
the null case, being set to the current timestamp when the incoming
value is null.  Two successive upserts of the same new identity with
complementary non-null fields (name only, then email only) leave a
single row with both fields populated. -/
theorem claim_C1_upsert_coalesce_semantics :
    (∀ (t : PeopleRepo.Table) (p : PeopleRepo.UpsertParams) (now : String)
        (r : PeopleRepo.Row),
      t.rows.find? (fun q => q.linkedin_profile = p.linkedin_profile) = some r →
      (PeopleRepo.upsert_person t p now).2 = r.id ∧
      (PeopleRepo.upsert_person t p now).1.rows.find?
          (fun q => q.linkedin_profile = p.linkedin_profile) =
        some { r with
          first_name := if p.first_name = none then r.first_name else p.first_name
          last_name := if p.last_name = none then r.last_name else p.last_name
          title_current := if p.title_current = none then r.title_current else p.title_current
          email := if p.email = none then r.email else p.email
          location_text := if p.location_text = none then r.location_text else p.location_text
          connections_linkedin :=
            if p.connections_linkedin = none then r.connections_linkedin
            else p.connections_linkedin
          followers_linkedin :=
            if p.followers_linkedin = none then r.followers_linkedin else p.followers_linkedin
          website_info := if p.website_info = none then r.website_info else p.website_info
          phone_info := if p.phone_info = none then r.phone_info else p.phone_info
          info_raw := if p.info_raw = none then r.info_raw else p.info_raw
          insights_text := if p.insights_text = none then r.insights_text else p.insights_text
          lookup_date :=
            if p.lookup_date = none then some (Db.SqlVal.text now) else p.lookup_date
          source_name := if p.source_name = none then r.source_name else p.source_name
          source_query := if p.source_query = none then r.source_query else p.source_query }) ∧
    (∀ (t : PeopleRepo.Table) (profile nameV emailV now1 now2 : String),
      t.rows.find? (fun q => q.linkedin_profile = profile) = none →
      ((PeopleRepo.upsert_person
          (PeopleRepo.upsert_person t (PeopleRepo.nameOnlyParams profile nameV) now1).1
          (PeopleRepo.emailOnlyParams profile emailV) now2).1.rows.filter
            (fun q => q.linkedin_profile = profile)) =
        [{ id := t.nextId, linkedin_profile := profile
           first_name := some (Db.SqlVal.text nameV), last_name := none
           title_current := none, email := some (Db.SqlVal.text emailV)
           location_text := none, connections_linkedin := none, followers_linkedin := none
           website_info := none, phone_info := none, info_raw := none, insights_text := none
           lookup_date := some (Db.SqlVal.text now2)
           source_name := none, source_query := none }]) := by
  constructor
  · intro t p now r hfind
    have hkey : r.linkedin_profile = p.linkedin_profile := by
      simpa using List.find?_some hfind
    constructor
    · simp [PeopleRepo.upsert_person, hfind]
    · simp only [PeopleRepo.upsert_person, hfind]
      refine (people_find_map_key t.rows p.linkedin_profile _ ?_).trans ?_
      · exact hkey
      · rw [hfind]
        simp only [Option.map_some']
        rw [db_coalesce_some_default p.lookup_date r.lookup_date (Db.SqlVal.text now)]
        simp [db_coalesce_ite]
  · intro t profile nameV emailV now1 now2 hnone
    have hall : ∀ q ∈ t.rows, ¬(q.linkedin_profile = profile) := by
      intro q hq
      have := List.find?_eq_none.mp hnone q hq
      simpa using this
    simp only [PeopleRepo.upsert_person, PeopleRepo.nameOnlyParams,
      PeopleRepo.emailOnlyParams]
    rw [hnone]
    simp only [List.find?_append, hnone, Option.none_orElse]
    rw [List.find?_cons_of_pos _ (by simp)]
    exact people_map_append_filter t.rows profile _ _ hall rfl rfl

/-- Witness for the amended C1: the conflict semantics applied to a
concrete one-row table and the complementary-fields scenario applied
to the empty table. -/
theorem claim_C1_witness :
    ((PeopleRepo.upsert_person PeopleRepo.wTable PeopleRepo.wParams "2026-05-05").2 = 7 ∧
      (PeopleRepo.upsert_person PeopleRepo.wTable PeopleRepo.wParams "2026-05-05").1.rows.find?
          (fun q => q.linkedin_profile = PeopleRepo.wParams.linkedin_profile) =
        some { PeopleRepo.wRow with
          email := some (Db.SqlVal.text "willa.mail")
          lookup_date := some (Db.SqlVal.text "2026-05-05") }) ∧
    ((PeopleRepo.upsert_person
        (PeopleRepo.upsert_person PeopleRepo.emptyTable
          (PeopleRepo.nameOnlyParams "https://linkedin.com/in/jane" "Jane") "t1").1
        (PeopleRepo.emailOnlyParams "https://linkedin.com/in/jane" "jane.mail") "t2").1.rows.filter
          (fun q => q.linkedin_profile = "https://linkedin.com/in/jane")) =
      [{ id := 1, linkedin_profile := "https://linkedin.com/in/jane"
         first_name := some (Db.SqlVal.text "Jane"), last_name := none
         title_current := none, email := some (Db.SqlVal.text "jane.mail")
         location_text := none, connections_linkedin := none, followers_linkedin := none
         website_info := none, phone_info := none, info_raw := none, insights_text := none
         lookup_date := some (Db.SqlVal.text "t2")
         source_name := none, source_query := none }] :=
  ⟨⟨(claim_C1_upsert_coalesce_semantics.1 PeopleRepo.wTable PeopleRepo.wParams "2026-05-05"
        PeopleRepo.wRow (by decide)).1,
    (claim_C1_upsert_coalesce_semantics.1 PeopleRepo.wTable PeopleRepo.wParams "2026-05-05"
        PeopleRepo.wRow (by decide)).2⟩,
    claim_C1_upsert_coalesce_semantics.2 PeopleRepo.emptyTable
      "https://linkedin.com/in/jane" "Jane" "jane.mail" "t1" "t2" (by decide)⟩

-- Companies repository lemmas.

/-- Claim C5: an enrichment update whose payload carries a domain
already owned by a different company row drops the domain field alone:
every other key in the payload is still applied to the target row, and
last_enriched_at is still stamped with the current time.  The target
row of the resulting table keeps its stored domain. -/
theorem claim_C5_enrichment_domain_conflict_drop :
    ∀ (t : CompaniesRepo.Table) (cid : Nat) (f : CompaniesRepo.EnrichFields)
      (now d : String) (rOwner : CompaniesRepo.Row),
      f.domain = some (some (Db.SqlVal.text d)) → d ≠ "" →
      t.rows.find? (fun r => r.domain = some (Db.SqlVal.text d)) = some rOwner →
      rOwner.id ≠ cid →
      (CompaniesRepo.update_enrichment t cid f now).rows =
        t.rows.map (fun r =>
          if r.id = cid then
            { r with
              legal_form := f.legal_form.getD r.legal_form
              industries_json := f.industries_json.getD r.industries_json
              locations_de_json := f.locations_de_json.getD r.locations_de_json
              multinational := f.multinational.getD r.multinational
              website := f.website.getD r.website
              size_employees := f.size_employees.getD r.size_employees
              business_model_json := f.business_model_json.getD r.business_model_json
              products_json := f.products_json.getD r.products_json
              recent_news_json := f.recent_news_json.getD r.recent_news_json
              last_enriched_at := some (Db.SqlVal.text now) }
          else r) := by
  intro t cid f now d rOwner hf hd hfind hne
  simp only [CompaniesRepo.update_enrichment, hf]
  rw [if_pos (by simp [CompaniesRepo.truthyVal, hd])]
  rw [hfind]
  simp [hne, CompaniesRepo.applyFields]

/-- Witness for C5: on the concrete two-company table, updating Beta
with a payload carrying the domain of Acme applies the legal form and
the timestamp but leaves the domain of Beta unchanged. -/
theorem claim_C5_witness :
    (CompaniesRepo.update_enrichment CompaniesRepo.cTable 2 CompaniesRepo.cFields
        "2026-03-03").rows =
      CompaniesRepo.cTable.rows.map (fun r =>
        if r.id = 2 then
          { r with
            legal_form := CompaniesRepo.cFields.legal_form.getD r.legal_form
            industries_json := CompaniesRepo.cFields.industries_json.getD r.industries_json
            locations_de_json := CompaniesRepo.cFields.locations_de_json.getD r.locations_de_json
            multinational := CompaniesRepo.cFields.multinational.getD r.multinational
            website := CompaniesRepo.cFields.website.getD r.website
            size_employees := CompaniesRepo.cFields.size_employees.getD r.size_employees
            business_model_json :=
              CompaniesRepo.cFields.business_model_json.getD r.business_model_json
            products_json := CompaniesRepo.cFields.products_json.getD r.products_json
            recent_news_json := CompaniesRepo.cFields.recent_news_json.getD r.recent_news_json
            last_enriched_at := some (Db.SqlVal.text "2026-03-03") }
        else r) :=
  claim_C5_enrichment_domain_conflict_drop CompaniesRepo.cTable 2 CompaniesRepo.cFields
    "2026-03-03" "acme.com" CompaniesRepo.cRowA (by decide) (by decide) (by decide) (by decide)

/-- Counterexample for claim C6: the empty string is a non-null domain,
but the code treats it as absent (Python truthiness), so two upserts
supplying the same non-null domain "" insert two provisional rows and
the second returns a fresh id instead of updating the existing row. -/
theorem claim_C6_counterexample :
    ((CompaniesRepo.upsert_by_domain
        (CompaniesRepo.upsert_by_domain CompaniesRepo.emptyCompanies (some "X") (some "")
          none none none none).1
        (some "Y") (some "") none none none none).1.rows.map
          (fun r => (r.id, r.domain))) = [(1, none), (2, none)] ∧
    ((CompaniesRepo.upsert_by_domain
        (CompaniesRepo.upsert_by_domain CompaniesRepo.emptyCompanies (some "X") (some "")
          none none none none).1
        (some "Y") (some "") none none none none).2 = 2) ∧
    (some "" : Option String) ≠ none ∧ (2 : Nat) ≠ 1 :=
  ⟨by decide, by decide, by decide, by decide⟩

theorem companies_ids_map_update (rows : List CompaniesRepo.Row) (rid : Nat)
    (r2 : CompaniesRepo.Row) (h : r2.id = rid) :
    (rows.map (fun q => if q.id = rid then r2 else q)).map (fun r => r.id) =
      rows.map (fun r => r.id) := by
  rw [List.map_map]
  refine List.map_congr_left ?_
  intro q _
  by_cases hq : q.id = rid <;> simp [Function.comp, hq, h]

theorem companies_WF_append (t : CompaniesRepo.Table) (nr : CompaniesRepo.Row)
    (h : nr.id = t.nextId) (hwf : CompaniesRepo.WF t) :
    CompaniesRepo.WF { rows := t.rows ++ [nr], nextId := t.nextId + 1 } := by
  obtain hnd := hwf.1
  obtain hlt := hwf.2
  constructor
  · rw [List.map_append, List.nodup_append]
    refine ⟨hnd, by simp, ?_⟩
    intro a ha hb
    simp only [List.map_cons, List.map_nil, List.mem_singleton] at hb
    obtain ⟨q, hq, rfl⟩ := List.mem_map.mp ha
    rw [h] at hb
    exact absurd hb (Nat.ne_of_lt (hlt q hq))
  · intro r hr
    rcases List.mem_append.mp hr with h1 | h2
    · exact Nat.lt_succ_of_lt (hlt r h1)
    · simp only [List.mem_singleton] at h2
      subst h2
      rw [h]
      exact Nat.lt_succ_self _

theorem companies_nodup_id_inj (rows : List CompaniesRepo.Row)
    (hnd : (rows.map (fun r => r.id)).Nodup) :
    ∀ a ∈ rows, ∀ b ∈ rows, a.id = b.id → a = b := by
  induction rows with
  | nil =>
    intro a ha
    cases ha
  | cons x rest ih =>
    intro a ha b hb hab
    simp only [List.map_cons, List.nodup_cons] at hnd
    obtain ⟨hx, hrest⟩ := hnd
    rcases List.mem_cons.mp ha with rfl | ha2 <;> rcases List.mem_cons.mp hb with rfl | hb2
    · rfl
    · exact absurd (hab ▸ List.mem_map_of_mem (fun r : CompaniesRepo.Row => r.id) hb2) hx
    · exact absurd (hab ▸ List.mem_map_of_mem (fun r : CompaniesRepo.Row => r.id) ha2)
        (fun hmem => hx (by simpa [hab] using hmem))
    · exact ih hrest a ha2 b hb2 hab

theorem companies_upsert_WF (t : CompaniesRepo.Table)
    (name domain website source_name source_query : Option String)
    (search_query_id : Option Int) (hwf : CompaniesRepo.WF t) :
    CompaniesRepo.WF
      (CompaniesRepo.upsert_by_domain t name domain website source_name source_query
        search_query_id).1 := by
  unfold CompaniesRepo.upsert_by_domain
  by_cases ht : CompaniesRepo.truthyStr domain = true
  · simp only [ht, if_true]
    cases hfind : t.rows.find?
        (fun r : CompaniesRepo.Row => r.domain = some (Db.SqlVal.text (domain.getD ""))) with
    | some r =>
      simp only [hfind]
      refine ⟨?_, ?_⟩
      · dsimp only
        convert hwf.1 using 1
        rw [List.map_map]
        refine List.map_congr_left ?_
        intro q _
        by_cases hq : q.id = r.id <;> simp [Function.comp, hq]
      · dsimp only
        intro q hq
        obtain ⟨q0, hq0, rfl⟩ := List.mem_map.mp hq
        by_cases h0 : q0.id = r.id
        · rw [if_pos h0]
          exact h0 ▸ hwf.2 q0 hq0
        · rw [if_neg h0]
          exact hwf.2 q0 hq0
    | none =>
      simp only [hfind]
      exact companies_WF_append t _ rfl hwf
  · simp only [Bool.not_eq_true] at ht
    simp only [ht, Bool.false_eq_true, if_false]
    exact companies_WF_append t _ rfl hwf

/-- One-step domain-count preservation for upserts with a non-empty
domain, on a well-formed table. -/
theorem upsert_countDomain_le (t : CompaniesRepo.Table)
    (name website source_name source_query : Option String) (search_query_id : Option Int)
    (d : String) (hd : d ≠ "") (hwf : CompaniesRepo.WF t)
    (hle : CompaniesRepo.countDomain t d ≤ 1) :
    CompaniesRepo.countDomain
      (CompaniesRepo.upsert_by_domain t name (some d) website source_name source_query
        search_query_id).1 d ≤ 1 := by
  have htruthy : CompaniesRepo.truthyStr (some d) = true := by
    simp [CompaniesRepo.truthyStr, hd]
  simp only [CompaniesRepo.upsert_by_domain, htruthy, if_true, Option.getD_some]
  cases hfind : t.rows.find? (fun r => r.domain = some (Db.SqlVal.text d)) with
  | some r =>
    simp only [hfind]
    have hrmem : r ∈ t.rows := List.mem_of_find?_eq_some hfind
    unfold CompaniesRepo.countDomain
    dsimp only
    rw [List.countP_map]
    calc List.countP _ t.rows = CompaniesRepo.countDomain t d := by
          refine List.countP_congr ?_
          intro q hqmem
          by_cases hq : q.id = r.id
          · have hqr : q = r := companies_nodup_id_inj t.rows hwf.1 q hqmem r hrmem hq
            subst hqr
            simp [hq, Function.comp]
          · simp [hq, Function.comp]
      _ ≤ 1 := hle
  | none =>
    simp only [hfind]
    unfold CompaniesRepo.countDomain
    dsimp only
    rw [List.countP_append]
    have h0 : t.rows.countP (fun r => r.domain = some (Db.SqlVal.text d)) = 0 := by
      rw [List.countP_eq_zero]
      intro a ha
      have := List.find?_eq_none.mp hfind a ha
      simpa using this
    simp [h0, CompaniesRepo.domainRow]

/-- Claim C6 (amended): for every sequence of company upserts that
supply the same non-null, non-empty domain, at most one row with that
domain ever exists; an upsert finding an existing row with the domain
updates it in place and returns its id without inserting; an upsert
with no truthy domain (null or empty) always inserts a fresh
provisional row with a NULL domain and returns its fresh id. -/
theorem claim_C6_upsert_domain_uniqueness :
    (∀ (t : CompaniesRepo.Table) (d : String) (args : List CompaniesRepo.UpsertArgs),
      d ≠ "" → CompaniesRepo.WF t → CompaniesRepo.countDomain t d ≤ 1 →
      CompaniesRepo.countDomain (CompaniesRepo.upsertSeq t d args) d ≤ 1) ∧
    (∀ (t : CompaniesRepo.Table)
        (name website source_name source_query : Option String)
        (search_query_id : Option Int) (d : String) (rOwner : CompaniesRepo.Row),
      d ≠ "" →
      t.rows.find? (fun r => r.domain = some (Db.SqlVal.text d)) = some rOwner →
      (CompaniesRepo.upsert_by_domain t name (some d) website source_name source_query
          search_query_id).2 = rOwner.id ∧
      (CompaniesRepo.upsert_by_domain t name (some d) website source_name source_query
          search_query_id).1.rows.length = t.rows.length) ∧
    (∀ (t : CompaniesRepo.Table)
        (name domain website source_name source_query : Option String)
        (search_query_id : Option Int),
      CompaniesRepo.truthyStr domain = false →
      (CompaniesRepo.upsert_by_domain t name domain website source_name source_query
          search_query_id).1.rows =
        t.rows ++ [CompaniesRepo.stubRow t.nextId name domain source_name source_query
          search_query_id] ∧
      (CompaniesRepo.upsert_by_domain t name domain website source_name source_query
          search_query_id).2 = t.nextId) := by
  refine ⟨?_, ?_, ?_⟩
  · intro t d args hd
    induction args generalizing t with
    | nil => intro _ h; exact h
    | cons a rest ih =>
      intro hwf hle
      exact ih _
        (companies_upsert_WF t a.name (some d) a.website a.source_name a.source_query
          a.search_query_id hwf)
        (upsert_countDomain_le t a.name a.website a.source_name a.source_query
          a.search_query_id d hd hwf hle)
  · intro t name website source_name source_query search_query_id d rOwner hd hfind
    have htruthy : CompaniesRepo.truthyStr (some d) = true := by
      simp [CompaniesRepo.truthyStr, hd]
    unfold CompaniesRepo.upsert_by_domain
    simp [htruthy, hfind]
  · intro t name domain website source_name source_query search_query_id hfalse
    unfold CompaniesRepo.upsert_by_domain
    simp [hfalse]

/-- Witness for the amended C6: the sequence invariant, the in-place
update and the provisional insert applied to concrete tables. -/
theorem claim_C6_witness :
    (CompaniesRepo.countDomain
        (CompaniesRepo.upsertSeq CompaniesRepo.cTable "acme.com"
          [{ name := some "Acme", website := none, source_name := none, source_query := none
             search_query_id := none },
           { name := none, website := some "https://acme.de", source_name := none
             source_query := none, search_query_id := none }]) "acme.com" ≤ 1) ∧
    ((CompaniesRepo.upsert_by_domain CompaniesRepo.cTable (some "Acme 2") (some "acme.com")
        none none none none).2 = 1 ∧
      (CompaniesRepo.upsert_by_domain CompaniesRepo.cTable (some "Acme 2") (some "acme.com")
        none none none none).1.rows.length = CompaniesRepo.cTable.rows.length) ∧
    ((CompaniesRepo.upsert_by_domain CompaniesRepo.cTable (some "NoDomain Co") none
        none none none none).1.rows =
      CompaniesRepo.cTable.rows ++ [CompaniesRepo.stubRow 3 (some "NoDomain Co") none
        none none none] ∧
      (CompaniesRepo.upsert_by_domain CompaniesRepo.cTable (some "NoDomain Co") none
        none none none none).2 = 3) :=
  ⟨claim_C6_upsert_domain_uniqueness.1 CompaniesRepo.cTable "acme.com" _ (by decide)
      (by constructor <;> decide) (by decide),
    claim_C6_upsert_domain_uniqueness.2.1 CompaniesRepo.cTable (some "Acme 2") none none none
      none "acme.com" CompaniesRepo.cRowA (by decide) (by decide),
    claim_C6_upsert_domain_uniqueness.2.2 CompaniesRepo.cTable (some "NoDomain Co") none none
      none none none (by decide)⟩

-- Legal-form derivation.

/-- Claim C9: legal-form derivation prefers a form detected inside the
company name over any separately supplied raw value, with the compound
multi-token suffixes checked before the simple single-token suffixes;
in particular the name with the compound suffix yields the compound
form with no supplied value, and a plain name with the long-form
German phrase supplied yields the canonical abbreviation. -/
theorem claim_C9_legal_form_derivation :
    (∀ (name provided : Option String) (f : String),
      LegalForm.extract_legal_form_from_name name = some f →
      LegalForm.derive_legal_form name provided = some f) ∧
    (∀ (s : String) (provided : Option String) (c : String),
      ¬(s = "") → ¬(Py.strip s.data = []) →
      LegalForm.compoundFromName (Py.lowerStr (Py.strip s.data)) = some c →
      LegalForm.derive_legal_form (some s) provided = some c) ∧
    LegalForm.derive_legal_form (some "Acme GmbH & Co. KG") none = some "GmbH & Co. KG" ∧
    LegalForm.derive_legal_form (some "Acme")
      (some "Gesellschaft mit beschränkter Haftung") = some "GmbH" := by
  refine ⟨?_, ?_, by decide, by decide⟩
  · intro name provided f h
    unfold LegalForm.derive_legal_form
    rw [h]
  · intro s provided c hs hn hcomp
    unfold LegalForm.derive_legal_form LegalForm.extract_legal_form_from_name
    dsimp only
    rw [if_neg hs, if_neg hn, hcomp]

/-- Witness for C9: the name preference and the compound priority
instantiated on concrete names. -/
theorem claim_C9_witness :
    LegalForm.derive_legal_form (some "Foo AG") (some "something else") = some "AG" ∧
    LegalForm.derive_legal_form (some "Bar SE & Co. KG") (some "GmbH") = some "SE & Co. KG" :=
  ⟨claim_C9_legal_form_derivation.1 (some "Foo AG") (some "something else") "AG" (by decide),
    claim_C9_legal_form_derivation.2.1 "Bar SE & Co. KG" (some "GmbH") "SE & Co. KG"
      (by decide) (by decide) (by decide)⟩

-- Fail-fast batch enrichment.

/-- Claim C2: if the fetch returns no dict for at least one company of
the batch, EnrichAndPersistCompanies.run raises before any
persistence: the companies table is left exactly as it was and an
error is reported, so no company of the batch has any enrichment
fields persisted. -/
theorem claim_C2_enrichment_fail_fast
    (apex : String → Option String)
    (fetch : Nat → Option String → Option String → Option EnrichStep.EnrichData)
    (companies : List EnrichStep.PendingCompany) (t : CompaniesRepo.Table) (now : String)
    (c : EnrichStep.PendingCompany)
    (hc : c ∈ companies) (hf : fetch c.id c.name c.domain = none) :
    (EnrichStep.run apex fetch companies t now).1 = t ∧
    (EnrichStep.run apex fetch companies t now).2.isSome = true := by
  have hmem : c ∈ ((companies.map
      (fun c => (c, fetch c.id c.name c.domain))).filter
        (fun r => r.2 = none)).map (fun r => r.1) := by
    refine List.mem_map.mpr ⟨(c, fetch c.id c.name c.domain), ?_, rfl⟩
    refine List.mem_filter.mpr ⟨List.mem_map_of_mem _ hc, by simp [hf]⟩
  have hne := List.ne_nil_of_mem hmem
  unfold EnrichStep.run
  dsimp only
  rw [if_pos hne]
  exact ⟨rfl, rfl⟩

/-- Witness for C2: a two-company batch where the second fetch fails
leaves the table untouched and reports the error. -/
theorem claim_C2_witness :
    (⟨7, some "Acme", some "acme.com"⟩ : EnrichStep.PendingCompany) ∈
      [(⟨3, some "Beta", none⟩ : EnrichStep.PendingCompany),
        ⟨7, some "Acme", some "acme.com"⟩] ∧
    (fun (i : Nat) (_ : Option String) (_ : Option String) =>
        if i = 3 then some (⟨some "GmbH", none, none, false, none, none, none, none, none⟩ :
          EnrichStep.EnrichData) else none) 7 (some "Acme") (some "acme.com") = none ∧
    (EnrichStep.run (fun _ => none)
        (fun (i : Nat) (_ : Option String) (_ : Option String) =>
          if i = 3 then some (⟨some "GmbH", none, none, false, none, none, none, none, none⟩ :
            EnrichStep.EnrichData) else none)
        [⟨3, some "Beta", none⟩, ⟨7, some "Acme", some "acme.com"⟩]
        CompaniesRepo.cTable "2025-01-01").1 = CompaniesRepo.cTable ∧
    (EnrichStep.run (fun _ => none)
        (fun (i : Nat) (_ : Option String) (_ : Option String) =>
          if i = 3 then some (⟨some "GmbH", none, none, false, none, none, none, none, none⟩ :
            EnrichStep.EnrichData) else none)
        [⟨3, some "Beta", none⟩, ⟨7, some "Acme", some "acme.com"⟩]
        CompaniesRepo.cTable "2025-01-01").2.isSome = true :=
  ⟨by decide, by decide,
    claim_C2_enrichment_fail_fast (fun _ => none) _ _ CompaniesRepo.cTable "2025-01-01"
      ⟨7, some "Acme", some "acme.com"⟩ (by decide) (by decide)⟩


-- The person-persistence step and the upsert wrapper signature.

theorem upsert_search_query_id_error (t : PeopleRepo.Table) (now url : String)
    (r : PersistPeopleStep.Record) (cqid : Db.Col) :
    PeopleRepo.upsert t now (PersistPeopleStep.upsertKwargs url r cqid) =
      Except.error "TypeError: upsert_person() got an unexpected keyword argument" := by
  have hb : (PersistPeopleStep.upsertKwargs url r cqid).all
      (fun kv => decide (kv.1 ∈ PeopleRepo.upsertPersonParamNames)) = false := by
    rw [List.all_eq_false]
    exact ⟨("search_query_id", cqid), by simp [PersistPeopleStep.upsertKwargs],
      by simp [PeopleRepo.upsertPersonParamNames]⟩
  unfold PeopleRepo.upsert
  rw [hb]
  rfl

theorem runAux_fail (now : String) (cqid : Db.Col) (r : PersistPeopleStep.Record)
    (raw url : String) (hraw : r.urlCandidate = some raw)
    (hn : DomainUtils.normalize_linkedin_profile_url raw = some url) :
    ∀ (records : List PersistPeopleStep.Record), r ∈ records →
      ∀ t, (PersistPeopleStep.runAux now cqid records t).1 = t ∧
        (PersistPeopleStep.runAux now cqid records t).2.isSome = true := by
  intro records
  induction records with
  | nil => intro hr; cases hr
  | cons a as ih =>
    intro hr t
    rcases List.mem_cons.mp hr with heq | hmem
    · subst heq
      simp only [PersistPeopleStep.runAux, hraw, hn]
      rw [upsert_search_query_id_error]
      exact ⟨rfl, rfl⟩
    · cases hac : a.urlCandidate with
      | none =>
        simp only [PersistPeopleStep.runAux, hac]
        exact ih hmem t
      | some rawA =>
        cases hnn : DomainUtils.normalize_linkedin_profile_url rawA with
        | none =>
          simp only [PersistPeopleStep.runAux, hac, hnn]
          exact ih hmem t
        | some urlA =>
          simp only [PersistPeopleStep.runAux, hac, hnn]
          rw [upsert_search_query_id_error]
          exact ⟨rfl, rfl⟩

/-- Claim C10: the person-persistence step calls the upsert wrapper
with a search_query_id keyword that the upsert_person signature does
not accept; on every batch containing at least one record whose
profile URL normalizes, the call raises TypeError before any write,
so the people table is left unchanged and the step does not complete
normally. -/
theorem claim_C10_persist_people_type_error
    (now : String) (cqid : Db.Col) (records : List PersistPeopleStep.Record)
    (t : PeopleRepo.Table) (r : PersistPeopleStep.Record) (raw url : String)
    (hr : r ∈ records) (hraw : r.urlCandidate = some raw)
    (hn : DomainUtils.normalize_linkedin_profile_url raw = some url) :
    ("search_query_id" ∈ (PersistPeopleStep.upsertKwargs url r cqid).map Prod.fst ∧
      "search_query_id" ∉ PeopleRepo.upsertPersonParamNames) ∧
    (PersistPeopleStep.run now cqid records t).1 = t ∧
    (PersistPeopleStep.run now cqid records t).2.isSome = true := by
  refine ⟨⟨by simp [PersistPeopleStep.upsertKwargs], by decide⟩, ?_, ?_⟩
  · exact (runAux_fail now cqid r raw url hraw hn records hr t).1
  · exact (runAux_fail now cqid r raw url hraw hn records hr t).2

/-- Witness for C10: a one-record batch with a canonical profile URL
leaves the stored table untouched and reports the TypeError. -/
theorem claim_C10_witness :
    ((PersistPeopleStep.cRec ∈ [PersistPeopleStep.cRec]) ∧
      PersistPeopleStep.cRec.urlCandidate = some "https://linkedin.com/in/willa" ∧
      DomainUtils.normalize_linkedin_profile_url "https://linkedin.com/in/willa" =
        some "https://linkedin.com/in/willa") ∧
    (("search_query_id" ∈ (PersistPeopleStep.upsertKwargs "https://linkedin.com/in/willa"
        PersistPeopleStep.cRec (some (Db.SqlVal.int 1))).map Prod.fst ∧
      "search_query_id" ∉ PeopleRepo.upsertPersonParamNames) ∧
    (PersistPeopleStep.run "2025-01-01" (some (Db.SqlVal.int 1))
        [PersistPeopleStep.cRec] PeopleRepo.wTable).1 = PeopleRepo.wTable ∧
    (PersistPeopleStep.run "2025-01-01" (some (Db.SqlVal.int 1))
        [PersistPeopleStep.cRec] PeopleRepo.wTable).2.isSome = true) :=
  ⟨⟨by decide, rfl, by decide⟩,
    claim_C10_persist_people_type_error "2025-01-01" (some (Db.SqlVal.int 1))
      [PersistPeopleStep.cRec] PeopleRepo.wTable PersistPeopleStep.cRec
      "https://linkedin.com/in/willa" "https://linkedin.com/in/willa"
      (by decide) rfl (by decide)⟩

-- Heuristic extraction on the concrete spec example.

/-- Counterexample for C3: on the Jane Doe item the non-AI extraction
does not return name Jane Doe with company Daimler Buses. -/
theorem claim_C3_counterexample :
    ¬(DataExtractor.extractNameCompanyNoAI DataExtractor.janeItem =
        some (("Jane Doe").data, some (("Daimler Buses").data))) := by decide

/-- Claim C3 (amended): the dash-or-pipe-LinkedIn suffix regex strips
only the trailing LinkedIn marker, and the long-title split fires only
on an en dash or em dash, never on the ASCII hyphen; so on the Jane
Doe title the extracted name is the whole pre-suffix text, and the
non-AI path stores no company at all (company is hardcoded to None
there), rather than name Jane Doe with company Daimler Buses. -/
theorem claim_C3_heuristic_extraction_actual :
    DataExtractor.extract_name_from_title
        (("Jane Doe - Head of Sales at Daimler Buses - LinkedIn").data) =
      some (("Jane Doe - Head of Sales at Daimler Buses").data) ∧
    DataExtractor.extractNameCompanyNoAI DataExtractor.janeItem =
      some ((("Jane Doe - Head of Sales at Daimler Buses").data), none) ∧
    (∀ (item : DataExtractor.ResultItem) (name : List Char) (co : Option (List Char)),
      DataExtractor.extractNameCompanyNoAI item = some (name, co) → co = none) := by
  refine ⟨by decide, by decide, ?_⟩
  intro item name co h
  unfold DataExtractor.extractNameCompanyNoAI at h
  cases hc : DataExtractor.clean_linkedin_url item.link.data with
  | none => rw [hc] at h; cases h
  | some u =>
    rw [hc] at h
    dsimp only at h
    cases hn : (match DataExtractor.extract_name_from_metatags item.metatags with
      | some n => some n
      | none => DataExtractor.extract_name_from_title item.title.data) with
    | none => rw [hn] at h; cases h
    | some nm =>
      rw [hn] at h
      cases h
      rfl

/-- Witness for C3: the company-is-absent property instantiated on the
concrete Jane Doe item. -/
theorem claim_C3_witness :
    DataExtractor.extractNameCompanyNoAI DataExtractor.janeItem =
      some ((("Jane Doe - Head of Sales at Daimler Buses").data),
        (none : Option (List Char))) ∧
    (none : Option (List Char)) = none :=
  ⟨by decide,
    claim_C3_heuristic_extraction_actual.2.2 DataExtractor.janeItem
      (("Jane Doe - Head of Sales at Daimler Buses").data) none (by decide)⟩

-- Cross-storage dedupe merge (cmd_dedupe_people).

theorem cli_mergeRow_id (p d : Cli.PRow) : (Cli.mergeRow p d).id = p.id := rfl

theorem cli_mergeRow_profile (p d : Cli.PRow) :
    (Cli.mergeRow p d).linkedin_profile = p.linkedin_profile := rfl

theorem cli_foldl_mergeRow_id (D : List Cli.PRow) (p : Cli.PRow) :
    (D.foldl Cli.mergeRow p).id = p.id := by
  induction D generalizing p with
  | nil => rfl
  | cons d ds ih => simpa using ih (Cli.mergeRow p d)

theorem cli_foldl_mergeRow_profile (D : List Cli.PRow) (p : Cli.PRow) :
    (D.foldl Cli.mergeRow p).linkedin_profile = p.linkedin_profile := by
  induction D generalizing p with
  | nil => rfl
  | cons d ds ih => simpa using ih (Cli.mergeRow p d)

theorem db_coalesce_none (pv : Db.Col) : Db.coalesce pv none = pv := by
  cases pv <;> rfl

theorem cli_goodVal_isSome (dv : Db.Col) (h : Cli.goodVal dv = true) : dv.isSome = true := by
  cases dv with
  | none => cases h
  | some v => rfl

theorem cli_firstGood_cons (pv dv : Db.Col) (vs : List Db.Col) :
    Cli.firstGoodFrom (Cli.mergeCol pv dv) vs = Cli.firstGoodFrom pv (dv :: vs) := by
  cases pv with
  | some v =>
    have h1 : Cli.mergeCol (some v) dv = some v := by
      unfold Cli.mergeCol
      by_cases h : Cli.goodVal dv = true
      · rw [if_pos h]; rfl
      · rw [if_neg h]
    rw [h1]
    rfl
  | none =>
    unfold Cli.mergeCol Cli.firstGoodFrom
    by_cases h : Cli.goodVal dv = true
    · rw [if_pos h, List.filter_cons_of_pos h]
      cases dv with
      | none => cases h
      | some x => simp [Db.coalesce]
    · rw [if_neg h, List.filter_cons_of_neg h]

theorem cli_fold_merge_col (f : Cli.PRow → Db.Col) (hf : f ∈ Cli.mergeAccessors) :
    ∀ (D : List Cli.PRow) (p : Cli.PRow),
      f (D.foldl Cli.mergeRow p) = Cli.firstGoodFrom (f p) (D.map f) := by
  have hcomm : ∀ p d, f (Cli.mergeRow p d) = Cli.mergeCol (f p) (f d) := by
    fin_cases hf <;> (intro p d; rfl)
  intro D
  induction D with
  | nil =>
    intro p
    unfold Cli.firstGoodFrom
    rw [List.map_nil, List.filter_nil]
    simp [db_coalesce_none]
  | cons d ds ih =>
    intro p
    rw [List.foldl_cons, ih (Cli.mergeRow p d), hcomm, cli_firstGood_cons, List.map_cons]

theorem cli_nodup_find (rows : List Cli.PRow) (d : Cli.PRow)
    (hnd : (rows.map (fun r => r.id)).Nodup) (hd : d ∈ rows) :
    rows.find? (fun r => r.id = d.id) = some d := by
  induction rows with
  | nil => cases hd
  | cons a as ih =>
    rw [List.map_cons, List.nodup_cons] at hnd
    rcases List.mem_cons.mp hd with heq | hmem
    · subst heq
      rw [List.find?_cons_of_pos]
      simp
    · have hne : ¬(a.id = d.id) := by
        intro h
        exact hnd.1 (by rw [h]; exact List.mem_map_of_mem (fun r => r.id) hmem)
      rw [List.find?_cons_of_neg _ (by simpa using hne)]
      exact ih hnd.2 hmem

theorem cli_processDupRows_eq (pid : Nat) (rows : List Cli.PRow) (d : Cli.PRow)
    (hnd : (rows.map (fun r => r.id)).Nodup) (hd : d ∈ rows) :
    Cli.processDupRows pid rows d.id =
      (rows.map (fun r => if r.id = pid then Cli.mergeRow r d else r)).filter
        (fun r => !(r.id = d.id)) := by
  unfold Cli.processDupRows
  rw [cli_nodup_find rows d hnd hd]

theorem cli_map_update_ids (rows : List Cli.PRow) (g : Cli.PRow → Cli.PRow)
    (hg : ∀ r, (g r).id = r.id) :
    (rows.map g).map (fun r => r.id) = rows.map (fun r => r.id) := by
  rw [List.map_map]
  exact List.map_congr_left (fun r _ => hg r)

theorem cli_processDupRows_ids (pid : Nat) (rows : List Cli.PRow) (did : Nat) :
    ((Cli.processDupRows pid rows did).map (fun r => r.id)).Sublist
      (rows.map (fun r => r.id)) := by
  unfold Cli.processDupRows
  cases hf : rows.find? (fun r => r.id = did) with
  | none => exact List.Sublist.refl _
  | some d =>
    have h1 := List.Sublist.map (fun r => r.id)
      (List.filter_sublist (l := rows.map (fun r => if r.id = pid then Cli.mergeRow r d else r))
        (p := fun r => !(r.id = did)))
    rw [cli_map_update_ids rows _
      (fun r => by by_cases h : r.id = pid <;> simp [h, cli_mergeRow_id])] at h1
    exact h1

theorem cli_foldDups (pid : Nat) :
    ∀ (D : List Cli.PRow) (rows : List Cli.PRow),
      (rows.map (fun r => r.id)).Nodup →
      (∀ d ∈ D, d ∈ rows) →
      pid ∉ D.map (fun r => r.id) →
      (D.map (fun r => r.id)).Nodup →
      (D.map (fun r => r.id)).foldl (Cli.processDupRows pid) rows =
        (rows.map (fun r => if r.id = pid then D.foldl Cli.mergeRow r else r)).filter
          (fun r => !(decide (r.id ∈ D.map (fun r => r.id)))) := by
  intro D
  induction D with
  | nil =>
    intro rows _ _ _ _
    simp
  | cons d ds ih =>
    intro rows hnd hmem hpid hdnd
    rw [List.map_cons, List.foldl_cons,
      cli_processDupRows_eq pid rows d hnd (hmem d (List.mem_cons_self d ds))]
    have hg1id : ∀ r : Cli.PRow,
        (if r.id = pid then Cli.mergeRow r d else r).id = r.id :=
      fun r => by by_cases h : r.id = pid <;> simp [h, cli_mergeRow_id]
    have hg2id : ∀ r : Cli.PRow,
        (if r.id = pid then ds.foldl Cli.mergeRow r else r).id = r.id :=
      fun r => by by_cases h : r.id = pid <;> simp [h, cli_foldl_mergeRow_id]
    have hsub : (((rows.map (fun r => if r.id = pid then Cli.mergeRow r d else r)).filter
        (fun r => !(r.id = d.id))).map (fun r => r.id)).Sublist
          (rows.map (fun r => r.id)) := by
      have h1 := List.Sublist.map (fun r => r.id)
        (List.filter_sublist
          (l := rows.map (fun r => if r.id = pid then Cli.mergeRow r d else r))
          (p := fun r => !(r.id = d.id)))
      rw [cli_map_update_ids rows _ hg1id] at h1
      exact h1
    have hnd1 := List.Nodup.sublist hsub hnd
    have hpid1 : pid ∉ ds.map (fun r => r.id) := by
      intro h
      exact hpid (by rw [List.map_cons]; exact List.mem_cons_of_mem _ h)
    have hdnd1 : (ds.map (fun r => r.id)).Nodup := by
      rw [List.map_cons, List.nodup_cons] at hdnd
      exact hdnd.2
    have hmem1 : ∀ x ∈ ds,
        x ∈ (rows.map (fun r => if r.id = pid then Cli.mergeRow r d else r)).filter
          (fun r => !(r.id = d.id)) := by
      intro x hx
      have hxrows : x ∈ rows := hmem x (List.mem_cons_of_mem d hx)
      have hxpid : ¬(x.id = pid) := by
        intro h
        refine hpid ?_
        rw [List.map_cons]
        exact List.mem_cons_of_mem _ (by rw [← h]; exact List.mem_map_of_mem (fun r => r.id) hx)
      have hxd : ¬(x.id = d.id) := by
        intro h
        rw [List.map_cons, List.nodup_cons] at hdnd
        exact hdnd.1 (by rw [← h]; exact List.mem_map_of_mem (fun r => r.id) hx)
      refine List.mem_filter.mpr ⟨?_, by simpa using hxd⟩
      refine List.mem_map.mpr ⟨x, hxrows, ?_⟩
      rw [if_neg hxpid]
    rw [ih _ hnd1 hmem1 hpid1 hdnd1]
    have hcomm : ((rows.map (fun r => if r.id = pid then Cli.mergeRow r d else r)).filter
        (fun r => !(r.id = d.id))).map
          (fun r => if r.id = pid then ds.foldl Cli.mergeRow r else r) =
        ((rows.map (fun r => if r.id = pid then Cli.mergeRow r d else r)).map
          (fun r => if r.id = pid then ds.foldl Cli.mergeRow r else r)).filter
            (fun r => !(r.id = d.id)) := by
      conv_rhs => rw [List.filter_map]
      congr 1
      apply List.filter_congr
      intro r _
      simp only [Function.comp]
      rw [hg2id r]
    rw [hcomm, List.filter_filter, List.map_map]
    have hmapeq : rows.map
        ((fun r => if r.id = pid then ds.foldl Cli.mergeRow r else r) ∘
          (fun r => if r.id = pid then Cli.mergeRow r d else r)) =
        rows.map (fun r => if r.id = pid then (d :: ds).foldl Cli.mergeRow r else r) := by
      apply List.map_congr_left
      intro r _
      by_cases h : r.id = pid
      · simp [Function.comp, h, cli_mergeRow_id, List.foldl_cons]
      · simp [Function.comp, h]
    rw [hmapeq]
    apply List.filter_congr
    intro r _
    by_cases h1 : r.id = d.id <;> by_cases h2 : r.id ∈ List.map (fun r => r.id) ds <;>
      simp [List.mem_cons, h1, h2]

theorem cli_orderedInsert_map (r : Cli.PRow) :
    ∀ (l : List Cli.PRow),
      List.orderedInsert (fun a b => a.1 ≤ b.1) (Cli.toEntry r) (l.map Cli.toEntry) =
        (List.orderedInsert Cli.idLe r l).map Cli.toEntry := by
  intro l
  induction l with
  | nil => rfl
  | cons b bs ih =>
    simp only [List.map_cons, List.orderedInsert]
    by_cases h : r.id ≤ b.id
    · rw [if_pos (show (Cli.toEntry r).1 ≤ (Cli.toEntry b).1 from h),
        if_pos (show Cli.idLe r b from h)]
      rfl
    · rw [if_neg (show ¬((Cli.toEntry r).1 ≤ (Cli.toEntry b).1) from h),
        if_neg (show ¬Cli.idLe r b from h), ih]
      rfl

theorem cli_insertionSort_map (G : List Cli.PRow) :
    (G.map Cli.toEntry).insertionSort (fun a b => a.1 ≤ b.1) =
      (G.insertionSort Cli.idLe).map Cli.toEntry := by
  induction G with
  | nil => rfl
  | cons g gs ih =>
    simp only [List.map_cons, List.insertionSort, ih, cli_orderedInsert_map]

theorem cli_fold_fst (pid : Nat) (X : String) :
    ∀ (es : List (Nat × String)) (st : List Cli.PRow × List String),
      (es.foldl (Cli.processDup pid X) st).1 =
        es.foldl (fun rs e => Cli.processDupRows pid rs e.1) st.1 := by
  intro es
  induction es with
  | nil => intro st; rfl
  | cons e es ih =>
    intro st
    rw [List.foldl_cons, List.foldl_cons, ih]
    rfl

theorem cli_fold_entries (pid : Nat) (D : List Cli.PRow) (rows : List Cli.PRow) :
    (D.map Cli.toEntry).foldl (fun rs e => Cli.processDupRows pid rs e.1) rows =
      (D.map (fun r => r.id)).foldl (Cli.processDupRows pid) rows := by
  rw [List.foldl_map, List.foldl_map]
  rfl

theorem cli_filter_map_id (l : List Cli.PRow) (g : Cli.PRow → Cli.PRow) (p : Cli.PRow → Bool)
    (hgid : ∀ r, (g r).id = r.id)
    (hp : ∀ r r', r.id = r'.id → p r = p r')
    (hfix : ∀ r, p r = true → g r = r) :
    (l.map g).filter p = l.filter p := by
  rw [List.filter_map]
  have h1 : (p ∘ g) = p := by
    funext r
    exact hp (g r) r (hgid r)
  rw [h1]
  have h2 : ∀ r ∈ l.filter p, g r = r := fun r hr => hfix r (List.mem_filter.mp hr).2
  rw [List.map_congr_left h2]
  simp

theorem cli_processDupRows_filterE (pid : Nat) (rows : List Cli.PRow) (did : Nat)
    (E : List Nat) (hpid : pid ∉ E) (hdid : did ∉ E) :
    (Cli.processDupRows pid rows did).filter (fun r => decide (r.id ∈ E)) =
      rows.filter (fun r => decide (r.id ∈ E)) := by
  unfold Cli.processDupRows
  cases hf : rows.find? (fun r => r.id = did) with
  | none => rfl
  | some d =>
    rw [List.filter_filter]
    have h1 : (rows.map (fun r => if r.id = pid then Cli.mergeRow r d else r)).filter
        (fun r => decide (r.id ∈ E) && !decide (r.id = did)) =
        rows.filter (fun r => decide (r.id ∈ E) && !decide (r.id = did)) := by
      refine cli_filter_map_id rows _ _ ?_ ?_ ?_
      · intro r
        by_cases h : r.id = pid <;> simp [h, cli_mergeRow_id]
      · intro r r' h
        rw [h]
      · intro r hr
        have hE : r.id ∈ E := by
          rcases Bool.and_eq_true_iff.mp hr with ⟨h1, _⟩
          simpa using h1
        rw [if_neg (fun h : r.id = pid => hpid (h ▸ hE))]
    rw [h1]
    apply List.filter_congr
    intro r _
    by_cases hE : r.id ∈ E
    · have hd : ¬(r.id = did) := fun h => hdid (h ▸ hE)
      simp [hE, hd]
    · simp [hE]

theorem cli_processDupRows_mem (pid : Nat) (rows : List Cli.PRow) (did : Nat) :
    ∀ r ∈ Cli.processDupRows pid rows did,
      ∃ r0 ∈ rows, r.id = r0.id ∧ r.linkedin_profile = r0.linkedin_profile := by
  intro r
  unfold Cli.processDupRows
  cases hf : rows.find? (fun r => r.id = did) with
  | none => exact fun hr => ⟨r, hr, rfl, rfl⟩
  | some d =>
    intro hr
    have hr2 := (List.mem_filter.mp hr).1
    obtain ⟨r0, hr0, heq⟩ := List.mem_map.mp hr2
    refine ⟨r0, hr0, ?_, ?_⟩ <;>
      (rw [← heq]; by_cases h : r0.id = pid <;>
        simp [h, cli_mergeRow_id, cli_mergeRow_profile])

theorem cli_foldE (pid : Nat) (E : List Nat) (hpid : pid ∉ E) :
    ∀ (es : List (Nat × String)) (rows : List Cli.PRow), (∀ e ∈ es, e.1 ∉ E) →
      (es.foldl (fun rs e => Cli.processDupRows pid rs e.1) rows).filter
          (fun r => decide (r.id ∈ E)) =
        rows.filter (fun r => decide (r.id ∈ E)) := by
  intro es
  induction es with
  | nil => intro rows _; rfl
  | cons e es ih =>
    intro rows hd
    rw [List.foldl_cons,
      ih _ (fun x hx => hd x (List.mem_cons_of_mem e hx)),
      cli_processDupRows_filterE pid rows e.1 E hpid (hd e (List.mem_cons_self e es))]

theorem cli_foldMem (pid : Nat) :
    ∀ (es : List (Nat × String)) (rows : List Cli.PRow),
      ∀ r ∈ es.foldl (fun rs e => Cli.processDupRows pid rs e.1) rows,
        ∃ r0 ∈ rows, r.id = r0.id ∧ r.linkedin_profile = r0.linkedin_profile := by
  intro es
  induction es with
  | nil => exact fun rows r hr => ⟨r, hr, rfl, rfl⟩
  | cons e es ih =>
    intro rows r hr
    rw [List.foldl_cons] at hr
    obtain ⟨r1, hr1, hid1, hp1⟩ := ih _ r hr
    obtain ⟨r0, hr0, hid0, hp0⟩ := cli_processDupRows_mem pid rows e.1 r1 hr1
    exact ⟨r0, hr0, hid1.trans hid0, hp1.trans hp0⟩

theorem cli_foldIds (pid : Nat) :
    ∀ (es : List (Nat × String)) (rows : List Cli.PRow),
      ((es.foldl (fun rs e => Cli.processDupRows pid rs e.1) rows).map
        (fun r => r.id)).Sublist (rows.map (fun r => r.id)) := by
  intro es
  induction es with
  | nil => exact fun rows => List.Sublist.refl _
  | cons e es ih =>
    intro rows
    rw [List.foldl_cons]
    exact (ih _).trans (cli_processDupRows_ids pid rows e.1)

theorem cli_processGroup_head_mem (es : List (Nat × String)) (hlen : ¬(es.length ≤ 1)) :
    (es.insertionSort (fun a b => a.1 ≤ b.1)).headD (0, "") ∈ es := by
  have hperm := List.perm_insertionSort (fun a b => a.1 ≤ b.1) es
  cases hs : es.insertionSort (fun a b => a.1 ≤ b.1) with
  | nil =>
    rw [hs] at hperm
    have h1 := hperm.length_eq
    simp at h1
    omega
  | cons a l =>
    rw [hs] at hperm
    exact hperm.subset (List.mem_cons_self a l)

theorem cli_processGroup_filterE (st : List Cli.PRow × List String) (Y : String)
    (es : List (Nat × String)) (E : List Nat)
    (hdisj : ∀ e ∈ es, e.1 ∉ E) :
    (Cli.processGroup st Y es).1.filter (fun r => decide (r.id ∈ E)) =
      st.1.filter (fun r => decide (r.id ∈ E)) := by
  unfold Cli.processGroup
  by_cases hlen : es.length ≤ 1
  · rw [if_pos hlen]
  · rw [if_neg hlen]
    dsimp only
    have hpid : ((es.insertionSort (fun a b => a.1 ≤ b.1)).headD (0, "")).1 ∉ E :=
      hdisj _ (cli_processGroup_head_mem es hlen)
    rw [cli_filter_map_id _ _ _
      (fun r => by
        by_cases h : r.id = ((es.insertionSort (fun a b => a.1 ≤ b.1)).headD (0, "")).1 ∧
          ¬(r.linkedin_profile = Y)
        · rw [if_pos h]
        · rw [if_neg h])
      (fun r r' h => by rw [h])
      (fun r hE => by
        rw [if_neg]
        intro hc
        exact hpid (hc.1 ▸ (by simpa using hE)))]
    rw [cli_fold_fst]
    exact cli_foldE _ E hpid _ st.1
      (fun e he => hdisj e ((List.perm_insertionSort _ es).subset (List.mem_of_mem_tail he)))

theorem cli_processGroup_mem (st : List Cli.PRow × List String) (Y : String)
    (es : List (Nat × String)) :
    ∀ r ∈ (Cli.processGroup st Y es).1,
      ∃ r0 ∈ st.1, r.id = r0.id ∧
        (r.linkedin_profile = r0.linkedin_profile ∨
          (r.linkedin_profile = Y ∧ ∃ e ∈ es, r.id = e.1)) := by
  intro r hr
  unfold Cli.processGroup at hr
  by_cases hlen : es.length ≤ 1
  · rw [if_pos hlen] at hr
    exact ⟨r, hr, rfl, Or.inl rfl⟩
  · rw [if_neg hlen] at hr
    dsimp only at hr
    obtain ⟨r1, hr1, heq⟩ := List.mem_map.mp hr
    have hr1a : r1 ∈ (es.insertionSort (fun a b => a.1 ≤ b.1)).tail.foldl
        (fun rs e => Cli.processDupRows
          ((es.insertionSort (fun a b => a.1 ≤ b.1)).headD (0, "")).1 rs e.1) st.1 := by
      rw [← cli_fold_fst]
      exact hr1
    obtain ⟨r0, hr0, hid, hprof⟩ := cli_foldMem _ _ st.1 r1 hr1a
    by_cases hc : r1.id = ((es.insertionSort (fun a b => a.1 ≤ b.1)).headD (0, "")).1 ∧
        ¬(r1.linkedin_profile = Y)
    · rw [if_pos hc] at heq
      refine ⟨r0, hr0, ?_, Or.inr ⟨?_, ?_⟩⟩
      · rw [← heq]
        exact hid
      · rw [← heq]
      · refine ⟨(es.insertionSort (fun a b => a.1 ≤ b.1)).headD (0, ""),
          cli_processGroup_head_mem es hlen, ?_⟩
        rw [← heq]
        exact hc.1
    · rw [if_neg hc] at heq
      exact ⟨r0, hr0, heq ▸ hid, Or.inl (heq ▸ hprof)⟩

theorem cli_processGroup_ids (st : List Cli.PRow × List String) (Y : String)
    (es : List (Nat × String)) :
    ((Cli.processGroup st Y es).1.map (fun r => r.id)).Sublist
      (st.1.map (fun r => r.id)) := by
  unfold Cli.processGroup
  by_cases hlen : es.length ≤ 1
  · rw [if_pos hlen]
  · rw [if_neg hlen]
    dsimp only
    rw [cli_map_update_ids _ _
      (fun r => by
        by_cases h : r.id = ((es.insertionSort (fun a b => a.1 ≤ b.1)).headD (0, "")).1 ∧
          ¬(r.linkedin_profile = Y)
        · rw [if_pos h]
        · rw [if_neg h])]
    rw [cli_fold_fst]
    exact cli_foldIds _ _ st.1

theorem cli_toEntry_fst (r : Cli.PRow) : (Cli.toEntry r).1 = r.id := rfl

theorem cli_profile_set_self (r : Cli.PRow) (X : String) (h : r.linkedin_profile = X) :
    ({ r with linkedin_profile := X } : Cli.PRow) = r := by
  rw [← h]

theorem cli_processGroup_X
    (st : List Cli.PRow × List String) (X : String) (G : List Cli.PRow)
    (P : Cli.PRow) (D : List Cli.PRow)
    (hnd : (st.1.map (fun r => r.id)).Nodup)
    (hfil : st.1.filter (fun r => decide (r.id ∈ G.map (fun r => r.id))) = G)
    (hsort : G.insertionSort Cli.idLe = P :: D)
    (hD : D ≠ []) :
    (Cli.processGroup st X (G.map Cli.toEntry)).1.filter
        (fun r => decide (r.id ∈ G.map (fun r => r.id))) =
      [{ D.foldl Cli.mergeRow P with linkedin_profile := X }] := by
  have hGsub : ∀ r ∈ G, r ∈ st.1 := by
    intro r hr
    rw [← hfil] at hr
    exact (List.mem_filter.mp hr).1
  have hGids : (G.map (fun r => r.id)).Nodup := by
    rw [← hfil]
    exact List.Nodup.sublist (List.Sublist.map _ (List.filter_sublist _)) hnd
  have hperm : (P :: D).Perm G := by
    rw [← hsort]
    exact List.perm_insertionSort Cli.idLe G
  have hidsperm : (P.id :: D.map (fun r => r.id)).Perm (G.map (fun r => r.id)) := by
    have h1 := hperm.map (fun r => r.id)
    rw [List.map_cons] at h1
    exact h1
  have hPDnd : (P.id :: D.map (fun r => r.id)).Nodup := hidsperm.nodup_iff.mpr hGids
  have hPnotD : P.id ∉ D.map (fun r => r.id) := (List.nodup_cons.mp hPDnd).1
  have hDnd : (D.map (fun r => r.id)).Nodup := (List.nodup_cons.mp hPDnd).2
  have hDsub : ∀ d ∈ D, d ∈ st.1 :=
    fun d hd => hGsub d (hperm.subset (List.mem_cons_of_mem P hd))
  have hlen : ¬((G.map Cli.toEntry).length ≤ 1) := by
    rw [List.length_map]
    have h1 := hperm.length_eq
    rw [List.length_cons] at h1
    cases D with
    | nil => exact absurd rfl hD
    | cons d ds =>
      rw [← h1, List.length_cons]
      omega
  have hsorted : (G.map Cli.toEntry).insertionSort (fun a b => a.1 ≤ b.1) =
      Cli.toEntry P :: D.map Cli.toEntry := by
    rw [cli_insertionSort_map, hsort, List.map_cons]
  have hg3id : ∀ r : Cli.PRow,
      (if r.id = P.id ∧ ¬(r.linkedin_profile = X) then
        { r with linkedin_profile := X } else r).id = r.id := by
    intro r
    by_cases h : r.id = P.id ∧ ¬(r.linkedin_profile = X)
    · rw [if_pos h]
    · rw [if_neg h]
  have hg2id : ∀ r : Cli.PRow,
      (if r.id = P.id then D.foldl Cli.mergeRow r else r).id = r.id := by
    intro r
    by_cases h : r.id = P.id
    · rw [if_pos h]
      rw [cli_foldl_mergeRow_id]
    · rw [if_neg h]
  unfold Cli.processGroup
  rw [if_neg hlen]
  dsimp only
  rw [hsorted]
  simp only [List.headD_cons, List.tail_cons, cli_toEntry_fst]
  rw [cli_fold_fst, cli_fold_entries,
    cli_foldDups P.id D st.1 hnd hDsub hPnotD hDnd]
  rw [List.filter_map]
  have hcompE : ((fun r : Cli.PRow => decide (r.id ∈ G.map (fun r => r.id))) ∘
      (fun r => if r.id = P.id ∧ ¬(r.linkedin_profile = X) then
        { r with linkedin_profile := X } else r)) =
      (fun r : Cli.PRow => decide (r.id ∈ G.map (fun r => r.id))) := by
    funext r
    simp only [Function.comp]
    rw [hg3id r]
  rw [hcompE, List.filter_filter, List.filter_map]
  have hcomp2 : ((fun r : Cli.PRow => decide (r.id ∈ G.map (fun r => r.id)) &&
      !(decide (r.id ∈ D.map (fun r => r.id)))) ∘
      (fun r => if r.id = P.id then D.foldl Cli.mergeRow r else r)) =
      (fun r : Cli.PRow => decide (r.id ∈ G.map (fun r => r.id)) &&
        !(decide (r.id ∈ D.map (fun r => r.id)))) := by
    funext r
    simp only [Function.comp]
    rw [hg2id r]
  rw [hcomp2]
  have hsplit : st.1.filter (fun r => decide (r.id ∈ G.map (fun r => r.id)) &&
      !(decide (r.id ∈ D.map (fun r => r.id)))) = [P] := by
    have h1 : st.1.filter (fun r => decide (r.id ∈ G.map (fun r => r.id)) &&
        !(decide (r.id ∈ D.map (fun r => r.id)))) =
        (st.1.filter (fun r => decide (r.id ∈ G.map (fun r => r.id)))).filter
          (fun r => !(decide (r.id ∈ D.map (fun r => r.id)))) := by
      rw [List.filter_filter]
      apply List.filter_congr
      intro r _
      rw [Bool.and_comm]
    rw [h1, hfil]
    have h2 : (G.filter (fun r => !(decide (r.id ∈ D.map (fun r => r.id))))).Perm
        ((P :: D).filter (fun r => !(decide (r.id ∈ D.map (fun r => r.id))))) :=
      List.Perm.filter _ hperm.symm
    have h3 : (P :: D).filter (fun r => !(decide (r.id ∈ D.map (fun r => r.id)))) = [P] := by
      rw [List.filter_cons_of_pos (by simpa using hPnotD)]
      have h4 : D.filter (fun r => !(decide (r.id ∈ D.map (fun r => r.id)))) = [] := by
        apply List.filter_eq_nil_iff.mpr
        intro d hd
        simp [List.mem_map_of_mem (fun r => r.id) hd]
      rw [h4]
    rw [h3] at h2
    exact List.perm_singleton.mp h2
  rw [hsplit]
  simp only [List.map_cons, List.map_nil, eq_self_iff_true, if_true]
  by_cases hMX : (D.foldl Cli.mergeRow P).linkedin_profile = X
  · rw [if_neg (fun hc => hc.2 hMX),
      cli_profile_set_self (D.foldl Cli.mergeRow P) X hMX]
  · rw [if_pos ⟨cli_foldl_mergeRow_id D P, hMX⟩]

theorem cli_addEntry_find (k : String) (e : Nat × String) (Y : String) :
    ∀ (gs : List (String × List (Nat × String))),
      (Cli.addEntry gs k e).find? (fun p => p.1 = Y) =
        if k = Y then
          match gs.find? (fun p => p.1 = Y) with
          | some p => some (p.1, p.2 ++ [e])
          | none => some (k, [e])
        else gs.find? (fun p => p.1 = Y) := by
  intro gs
  induction gs with
  | nil =>
    by_cases h : k = Y
    · rw [if_pos h]
      simp [Cli.addEntry, List.find?_cons, h]
    · rw [if_neg h]
      simp [Cli.addEntry, List.find?_cons, h]
  | cons g gs ih =>
    show (if g.1 = k then (g.1, g.2 ++ [e]) :: gs else g :: Cli.addEntry gs k e).find?
        (fun p => p.1 = Y) = _
    by_cases h1 : g.1 = k
    · rw [if_pos h1]
      by_cases h2 : g.1 = Y
      · rw [List.find?_cons_of_pos _ (by simpa using h2),
          if_pos (h1 ▸ h2), List.find?_cons_of_pos _ (by simpa using h2)]
      · have hkY : ¬(k = Y) := fun h => h2 (h1.trans h)
        rw [List.find?_cons_of_neg _ (by simpa using h2), if_neg hkY,
          List.find?_cons_of_neg _ (by simpa using h2)]
    · rw [if_neg h1]
      by_cases h2 : g.1 = Y
      · have hkY : ¬(k = Y) := fun h => h1 (h2.trans h.symm)
        rw [List.find?_cons_of_pos _ (by simpa using h2), if_neg hkY,
          List.find?_cons_of_pos _ (by simpa using h2)]
      · rw [List.find?_cons_of_neg _ (by simpa using h2), ih,
          List.find?_cons_of_neg _ (by simpa using h2)]

theorem cli_addEntry_keys (k : String) (e : Nat × String) :
    ∀ (gs : List (String × List (Nat × String))),
      (Cli.addEntry gs k e).map Prod.fst =
        if gs.find? (fun p => p.1 = k) = none then gs.map Prod.fst ++ [k]
        else gs.map Prod.fst := by
  intro gs
  induction gs with
  | nil => simp [Cli.addEntry]
  | cons g gs ih =>
    show (if g.1 = k then (g.1, g.2 ++ [e]) :: gs else g :: Cli.addEntry gs k e).map
        Prod.fst = _
    by_cases h1 : g.1 = k
    · rw [if_pos h1, List.find?_cons_of_pos _ (by simpa using h1)]
      simp
    · rw [if_neg h1, List.find?_cons_of_neg _ (by simpa using h1), List.map_cons, ih]
      by_cases h2 : gs.find? (fun p => p.1 = k) = none
      · rw [if_pos h2, if_pos h2, List.map_cons, List.cons_append]
      · rw [if_neg h2, if_neg h2, List.map_cons]

theorem cli_addEntry_keys_nodup (k : String) (e : Nat × String)
    (gs : List (String × List (Nat × String))) (h : (gs.map Prod.fst).Nodup) :
    ((Cli.addEntry gs k e).map Prod.fst).Nodup := by
  rw [cli_addEntry_keys]
  by_cases h2 : gs.find? (fun p => p.1 = k) = none
  · rw [if_pos h2]
    have hk : k ∉ gs.map Prod.fst := by
      intro hmem
      obtain ⟨p, hp, hpk⟩ := List.mem_map.mp hmem
      rw [List.find?_eq_none] at h2
      exact h2 p hp (by simpa using hpk)
    simp [List.nodup_append, h, hk]
  · rw [if_neg h2]
    exact h

theorem cli_build_keys_nodup :
    ∀ (rows : List Cli.PRow) (gs : List (String × List (Nat × String))),
      (gs.map Prod.fst).Nodup →
      ((rows.foldl (fun a r =>
          Cli.addEntry a (Cli.normKey r.linkedin_profile) (Cli.toEntry r)) gs).map
        Prod.fst).Nodup := by
  intro rows
  induction rows with
  | nil => exact fun gs h => h
  | cons r rs ih =>
    intro gs h
    rw [List.foldl_cons]
    exact ih _ (cli_addEntry_keys_nodup _ _ gs h)

theorem cli_keys_find :
    ∀ (gs : List (String × List (Nat × String))) (p : String × List (Nat × String)),
      (gs.map Prod.fst).Nodup → p ∈ gs → gs.find? (fun q => q.1 = p.1) = some p := by
  intro gs
  induction gs with
  | nil => intro p _ hp; cases hp
  | cons g gs ih =>
    intro p hnd hp
    rw [List.map_cons, List.nodup_cons] at hnd
    rcases List.mem_cons.mp hp with heq | hmem
    · subst heq
      rw [List.find?_cons_of_pos _ (by simp)]
    · have hne : ¬(g.1 = p.1) := by
        intro h
        exact hnd.1 (by rw [h]; exact List.mem_map_of_mem Prod.fst hmem)
      rw [List.find?_cons_of_neg _ (by simpa using hne)]
      exact ih p hnd.2 hmem

theorem cli_build_inv (Y : String) :
    ∀ (rows : List Cli.PRow) (gs : List (String × List (Nat × String))),
      (rows.foldl (fun a r =>
          Cli.addEntry a (Cli.normKey r.linkedin_profile) (Cli.toEntry r)) gs).find?
          (fun p => p.1 = Y) =
        (match gs.find? (fun p => p.1 = Y) with
         | some p =>
           some (p.1, p.2 ++
             (rows.filter (fun r => Cli.normKey r.linkedin_profile = Y)).map Cli.toEntry)
         | none =>
           if (rows.filter (fun r => Cli.normKey r.linkedin_profile = Y)) = [] then none
           else some (Y,
             (rows.filter (fun r => Cli.normKey r.linkedin_profile = Y)).map Cli.toEntry)) := by
  intro rows
  induction rows with
  | nil =>
    intro gs
    cases h : gs.find? (fun p => p.1 = Y) with
    | none => simp [h]
    | some p => simp [h]
  | cons r rs ih =>
    intro gs
    rw [List.foldl_cons, ih, cli_addEntry_find]
    by_cases h1 : Cli.normKey r.linkedin_profile = Y
    · rw [if_pos h1, List.filter_cons_of_pos (by simpa using h1), List.map_cons]
      cases h : gs.find? (fun p => p.1 = Y) with
      | none => simp [h1]
      | some p => simp [List.append_assoc]
    · rw [if_neg h1, List.filter_cons_of_neg (by simpa using h1)]

theorem cli_people_inj (people : List Cli.PRow)
    (hnd : (people.map (fun r => r.id)).Nodup)
    (r r' : Cli.PRow) (hr : r ∈ people) (hr' : r' ∈ people) (h : r.id = r'.id) :
    r = r' := by
  have h1 := cli_nodup_find people r hnd hr
  have h2 := cli_nodup_find people r' hnd hr'
  rw [h] at h1
  exact Option.some.inj (h1.symm.trans h2)

theorem cli_phase (X : String) (E : List Nat) :
    ∀ (gs : List (String × List (Nat × String))),
      (∀ g ∈ gs, ∀ e ∈ g.2, e.1 ∉ E) →
      (∀ g ∈ gs, ¬(g.1 = X)) →
      ∀ st : List Cli.PRow × List String,
        ((gs.foldl (fun st g => Cli.processGroup st g.1 g.2) st).1.filter
            (fun r => decide (r.id ∈ E)) =
          st.1.filter (fun r => decide (r.id ∈ E))) ∧
        ((∀ r ∈ st.1, r.linkedin_profile = X → r.id ∈ E) →
          ∀ r ∈ (gs.foldl (fun st g => Cli.processGroup st g.1 g.2) st).1,
            r.linkedin_profile = X → r.id ∈ E) ∧
        (((gs.foldl (fun st g => Cli.processGroup st g.1 g.2) st).1.map
          (fun r => r.id)).Sublist (st.1.map (fun r => r.id))) := by
  intro gs
  induction gs with
  | nil =>
    intro _ _ st
    exact ⟨rfl, fun h => h, List.Sublist.refl _⟩
  | cons g gs ih =>
    intro hdisj hkey st
    have hdisj1 : ∀ g1 ∈ gs, ∀ e ∈ g1.2, e.1 ∉ E :=
      fun g1 hg1 => hdisj g1 (List.mem_cons_of_mem g hg1)
    have hkey1 : ∀ g1 ∈ gs, ¬(g1.1 = X) :=
      fun g1 hg1 => hkey g1 (List.mem_cons_of_mem g hg1)
    have ihg := ih hdisj1 hkey1 (Cli.processGroup st g.1 g.2)
    rw [List.foldl_cons]
    refine ⟨?_, ?_, ?_⟩
    · rw [ihg.1]
      exact cli_processGroup_filterE st g.1 g.2 E
        (hdisj g (List.mem_cons_self g gs))
    · intro hC
      refine ihg.2.1 ?_
      intro r hr hpX
      obtain ⟨r0, hr0, hid, hcase⟩ := cli_processGroup_mem st g.1 g.2 r hr
      rcases hcase with hpeq | ⟨hpg, _⟩
      · rw [hid]
        exact hC r0 hr0 (hpeq.symm.trans hpX)
      · exact absurd (hpg.symm.trans hpX) (hkey g (List.mem_cons_self g gs))
    · exact ihg.2.2.trans (cli_processGroup_ids st g.1 g.2)

theorem cli_dedupe_main (people : List Cli.PRow) (outreach : List String) (X : String)
    (G : List Cli.PRow) (P : Cli.PRow) (D : List Cli.PRow)
    (hGdef : G = people.filter (fun r => Cli.normKey r.linkedin_profile = X))
    (hnd : (people.map (fun r => r.id)).Nodup)
    (halias : ∀ r ∈ people, r.linkedin_profile = X → Cli.normKey r.linkedin_profile = X)
    (hsort : G.insertionSort Cli.idLe = P :: D)
    (hD : D ≠ []) :
    ((Cli.mergeGroups people outreach).1.filter
        (fun r => r.linkedin_profile = X) =
      [{ D.foldl Cli.mergeRow P with linkedin_profile := X }]) ∧
    (∀ d ∈ D, ∀ r ∈ (Cli.mergeGroups people outreach).1, ¬(r.id = d.id)) := by
  have hperm : (P :: D).Perm G := by
    rw [← hsort]
    exact List.perm_insertionSort Cli.idLe G
  have hGne : G ≠ [] := by
    intro h
    rw [h] at hperm
    have h1 := hperm.length_eq
    simp at h1
  have hGsubP : ∀ r ∈ G, r ∈ people := by
    intro r hr
    rw [hGdef] at hr
    exact (List.mem_filter.mp hr).1
  have hGkey : ∀ r ∈ G, Cli.normKey r.linkedin_profile = X := by
    intro r hr
    rw [hGdef] at hr
    simpa using (List.mem_filter.mp hr).2
  have hGids : (G.map (fun r => r.id)).Nodup := by
    rw [hGdef]
    exact List.Nodup.sublist (List.Sublist.map _ (List.filter_sublist _)) hnd
  have hidsperm : (P.id :: D.map (fun r => r.id)).Perm (G.map (fun r => r.id)) := by
    have h1 := hperm.map (fun r => r.id)
    rw [List.map_cons] at h1
    exact h1
  have hPnotD : P.id ∉ D.map (fun r => r.id) :=
    (List.nodup_cons.mp (hidsperm.nodup_iff.mpr hGids)).1
  have hEmem : ∀ i, i ∈ G.map (fun r => r.id) → ∃ r' ∈ G, r'.id = i := by
    intro i hi
    obtain ⟨r', hr', hid⟩ := List.mem_map.mp hi
    exact ⟨r', hr', hid⟩
  have hknd : ((Cli.buildGroups people).map Prod.fst).Nodup :=
    cli_build_keys_nodup people [] (by simp)
  have hfindG : ∀ (Y : String), (Cli.buildGroups people).find? (fun p => p.1 = Y) =
      if (people.filter (fun r => Cli.normKey r.linkedin_profile = Y)) = [] then none
      else some (Y,
        (people.filter (fun r => Cli.normKey r.linkedin_profile = Y)).map Cli.toEntry) := by
    intro Y
    have h2 := cli_build_inv Y people []
    rw [List.find?_nil] at h2
    exact h2
  have hfind : (Cli.buildGroups people).find? (fun p => p.1 = X) =
      some (X, G.map Cli.toEntry) := by
    rw [hfindG X, ← hGdef, if_neg hGne]
  have hXmem : (X, G.map Cli.toEntry) ∈ Cli.buildGroups people :=
    List.mem_of_find?_eq_some hfind
  obtain ⟨gs1, gs2, hdecomp⟩ := List.append_of_mem hXmem
  have hknd2 := hknd
  rw [hdecomp, List.map_append, List.map_cons] at hknd2
  have hsplitnd := List.nodup_append.mp hknd2
  have hX1 : ∀ g ∈ gs1, ¬(g.1 = X) := by
    intro g hg hgX
    have h5 : g.1 ∈ (X, G.map Cli.toEntry).1 :: gs2.map Prod.fst := by
      rw [hgX]
      exact List.mem_cons_self _ _
    exact hsplitnd.2.2 (List.mem_map_of_mem Prod.fst hg) h5
  have hX2 : ∀ g ∈ gs2, ¬(g.1 = X) := by
    intro g hg hgX
    have h5 : (X, G.map Cli.toEntry).1 ∈ gs2.map Prod.fst := by
      have h6 := List.mem_map_of_mem Prod.fst hg
      rw [hgX] at h6
      exact h6
    exact (List.nodup_cons.mp hsplitnd.2.1).1 h5
  have hG3 : ∀ g ∈ Cli.buildGroups people,
      g.2 = (people.filter (fun r => Cli.normKey r.linkedin_profile = g.1)).map
        Cli.toEntry := by
    intro g hg
    have h1 := cli_keys_find (Cli.buildGroups people) g hknd hg
    have h2 := hfindG g.1
    rw [h1] at h2
    by_cases hf : (people.filter (fun r => Cli.normKey r.linkedin_profile = g.1)) = []
    · rw [if_pos hf] at h2
      cases h2
    · rw [if_neg hf] at h2
      exact congrArg Prod.snd (Option.some.inj h2)
  have hdisjE : ∀ g ∈ Cli.buildGroups people, ¬(g.1 = X) →
      ∀ e ∈ g.2, e.1 ∉ G.map (fun r => r.id) := by
    intro g hg hgX e he hE
    rw [hG3 g hg] at he
    obtain ⟨r, hr, hre⟩ := List.mem_map.mp he
    obtain ⟨r', hr'G, hid⟩ := hEmem e.1 hE
    have hrP : r ∈ people := (List.mem_filter.mp hr).1
    have hrk : Cli.normKey r.linkedin_profile = g.1 := by
      simpa using (List.mem_filter.mp hr).2
    have he1 : e.1 = r.id := by
      rw [← hre]
      exact cli_toEntry_fst r
    have hrr : r' = r := cli_people_inj people hnd r' r (hGsubP r' hr'G) hrP
      (by rw [hid, he1])
    have hkX : Cli.normKey r.linkedin_profile = X := by
      rw [← hrr]
      exact hGkey r' hr'G
    exact hgX (hrk.symm.trans hkX)
  have hfil0 : people.filter (fun r => decide (r.id ∈ G.map (fun r => r.id))) = G := by
    conv_rhs => rw [hGdef]
    apply List.filter_congr
    intro r hr
    by_cases hk : Cli.normKey r.linkedin_profile = X
    · have hrG : r ∈ G := by
        rw [hGdef]
        exact List.mem_filter.mpr ⟨hr, by simpa using hk⟩
      simp [List.mem_map_of_mem (fun r => r.id) hrG, hk]
    · have hnotE : r.id ∉ G.map (fun r => r.id) := by
        intro hi
        obtain ⟨r', hr'G, hid⟩ := hEmem r.id hi
        have hrr := cli_people_inj people hnd r' r (hGsubP r' hr'G) hr hid
        exact hk (hrr ▸ hGkey r' hr'G)
      simp [hnotE, hk]
  have hC0 : ∀ r ∈ people, r.linkedin_profile = X → r.id ∈ G.map (fun r => r.id) := by
    intro r hr hpX
    have hk := halias r hr hpX
    have hrG : r ∈ G := by
      rw [hGdef]
      exact List.mem_filter.mpr ⟨hr, by simpa using hk⟩
    exact List.mem_map_of_mem (fun r => r.id) hrG
  have hres : Cli.mergeGroups people outreach =
      gs2.foldl (fun st g => Cli.processGroup st g.1 g.2)
        (Cli.processGroup (gs1.foldl (fun st g => Cli.processGroup st g.1 g.2)
          (people, outreach)) X (G.map Cli.toEntry)) := by
    unfold Cli.mergeGroups
    rw [hdecomp, List.foldl_append, List.foldl_cons]
  have hph1 := cli_phase X (G.map (fun r => r.id)) gs1
    (fun g hg => hdisjE g (hdecomp ▸ List.mem_append_left _ hg) (hX1 g hg))
    hX1 (people, outreach)
  have hst1fil : (gs1.foldl (fun st g => Cli.processGroup st g.1 g.2)
      (people, outreach)).1.filter (fun r => decide (r.id ∈ G.map (fun r => r.id))) = G :=
    hph1.1.trans hfil0
  have hst1C := hph1.2.1 hC0
  have hst1nd : ((gs1.foldl (fun st g => Cli.processGroup st g.1 g.2)
      (people, outreach)).1.map (fun r => r.id)).Nodup :=
    List.Nodup.sublist hph1.2.2 hnd
  have hXfil := cli_processGroup_X
    (gs1.foldl (fun st g => Cli.processGroup st g.1 g.2) (people, outreach))
    X G P D hst1nd hst1fil hsort hD
  have hXC : ∀ r ∈ (Cli.processGroup
      (gs1.foldl (fun st g => Cli.processGroup st g.1 g.2) (people, outreach))
      X (G.map Cli.toEntry)).1,
      r.linkedin_profile = X → r.id ∈ G.map (fun r => r.id) := by
    intro r hr hpX
    obtain ⟨r0, hr0, hid, hcase⟩ := cli_processGroup_mem _ X (G.map Cli.toEntry) r hr
    rcases hcase with hpeq | ⟨_, e, he, hide⟩
    · rw [hid]
      exact hst1C r0 hr0 (hpeq.symm.trans hpX)
    · obtain ⟨rg, hrg, hrge⟩ := List.mem_map.mp he
      rw [hide, ← hrge]
      exact List.mem_map_of_mem (fun r => r.id) hrg
  have hph2 := cli_phase X (G.map (fun r => r.id)) gs2
    (fun g hg => hdisjE g
      (hdecomp ▸ List.mem_append_right _ (List.mem_cons_of_mem _ hg)) (hX2 g hg))
    hX2 (Cli.processGroup
      (gs1.foldl (fun st g => Cli.processGroup st g.1 g.2) (people, outreach))
      X (G.map Cli.toEntry))
  have hfinfil : (Cli.mergeGroups people outreach).1.filter
      (fun r => decide (r.id ∈ G.map (fun r => r.id))) =
      [{ D.foldl Cli.mergeRow P with linkedin_profile := X }] := by
    rw [hres, hph2.1, hXfil]
  have hfinC : ∀ r ∈ (Cli.mergeGroups people outreach).1,
      r.linkedin_profile = X → r.id ∈ G.map (fun r => r.id) := by
    rw [hres]
    exact hph2.2.1 hXC
  constructor
  · have h1 : (Cli.mergeGroups people outreach).1.filter
        (fun r => r.linkedin_profile = X) =
        ((Cli.mergeGroups people outreach).1.filter
          (fun r => decide (r.id ∈ G.map (fun r => r.id)))).filter
            (fun r => r.linkedin_profile = X) := by
      rw [List.filter_filter]
      apply List.filter_congr
      intro r hr
      by_cases hp : r.linkedin_profile = X
      · simp [hp, hfinC r hr hp]
      · simp [hp]
    rw [h1, hfinfil, List.filter_cons_of_pos (by simp), List.filter_nil]
  · intro d hd r hr hrid
    have hdG : d ∈ G := hperm.subset (List.mem_cons_of_mem P hd)
    have hdE : d.id ∈ G.map (fun r => r.id) := List.mem_map_of_mem (fun r => r.id) hdG
    have hrE : r.id ∈ G.map (fun r => r.id) := by
      rw [hrid]
      exact hdE
    have hrmem : r ∈ (Cli.mergeGroups people outreach).1.filter
        (fun r => decide (r.id ∈ G.map (fun r => r.id))) :=
      List.mem_filter.mpr ⟨hr, by simpa using hrE⟩
    rw [hfinfil] at hrmem
    have hrM : r = { D.foldl Cli.mergeRow P with linkedin_profile := X } := by
      simpa using hrmem
    have hrid2 : r.id = P.id := by
      rw [hrM]
      exact cli_foldl_mergeRow_id D P
    have hPd : P.id = d.id := hrid2.symm.trans hrid
    refine hPnotD ?_
    rw [hPd]
    exact List.mem_map_of_mem (fun r => r.id) hd

theorem cli_min_id (G : List Cli.PRow) (P : Cli.PRow) (D : List Cli.PRow)
    (hsort : G.insertionSort Cli.idLe = P :: D) :
    ∀ r ∈ G, P.id ≤ r.id := by
  intro r hr
  have hperm : (P :: D).Perm G := by
    rw [← hsort]
    exact List.perm_insertionSort Cli.idLe G
  have hsorted := List.sorted_insertionSort Cli.idLe G
  rw [hsort] at hsorted
  have hmin := (List.sorted_cons.mp hsorted).1
  rcases List.mem_cons.mp (hperm.symm.subset hr) with heq | hmem
  · rw [heq]
  · exact hmin r hmem

theorem cli_buildGroups_char (people : List Cli.PRow) :
    ∀ g ∈ Cli.buildGroups people,
      g.2 = (people.filter (fun r => Cli.normKey r.linkedin_profile = g.1)).map
        Cli.toEntry := by
  intro g hg
  have hknd : ((Cli.buildGroups people).map Prod.fst).Nodup :=
    cli_build_keys_nodup people [] (by simp)
  have h1 := cli_keys_find (Cli.buildGroups people) g hknd hg
  have h2 : (Cli.buildGroups people).find? (fun p => p.1 = g.1) =
      if (people.filter (fun r => Cli.normKey r.linkedin_profile = g.1)) = [] then none
      else some (g.1,
        (people.filter (fun r => Cli.normKey r.linkedin_profile = g.1)).map Cli.toEntry) := by
    have h3 := cli_build_inv g.1 people []
    rw [List.find?_nil] at h3
    exact h3
  rw [h1] at h2
  by_cases hf : (people.filter (fun r => Cli.normKey r.linkedin_profile = g.1)) = []
  · rw [if_pos hf] at h2
    cases h2
  · rw [if_neg hf] at h2
    exact congrArg Prod.snd (Option.some.inj h2)

theorem cli_processDupRows_deleted (pid : Nat) (rows : List Cli.PRow) (did : Nat) :
    did ∉ (Cli.processDupRows pid rows did).map (fun r => r.id) := by
  unfold Cli.processDupRows
  cases hf : rows.find? (fun r => r.id = did) with
  | none =>
    intro hmem
    obtain ⟨r, hr, hid⟩ := List.mem_map.mp hmem
    have h2 := List.find?_eq_none.mp hf r hr
    simp only [decide_eq_true_eq] at h2
    exact h2 hid
  | some d =>
    intro hmem
    obtain ⟨r, hr, hid⟩ := List.mem_map.mp hmem
    have h2 := (List.mem_filter.mp hr).2
    rw [hid] at h2
    simp at h2

theorem cli_fold_deleted (pid : Nat) :
    ∀ (es : List (Nat × String)) (rows : List Cli.PRow), ∀ e ∈ es,
      e.1 ∉ ((es.foldl (fun rs e => Cli.processDupRows pid rs e.1) rows).map
        (fun r => r.id)) := by
  intro es
  induction es with
  | nil => intro rows e he; cases he
  | cons a as ih =>
    intro rows e he
    rw [List.foldl_cons]
    rcases List.mem_cons.mp he with heq | hmem
    · subst heq
      intro hmem2
      exact cli_processDupRows_deleted pid rows e.1
        ((cli_foldIds pid as (Cli.processDupRows pid rows e.1)).subset hmem2)
    · exact ih _ e hmem

theorem cli_groupConflict_false (people : List Cli.PRow)
    (H : ∀ r ∈ people, ∀ r' ∈ people,
      r.linkedin_profile = Cli.normKey r'.linkedin_profile →
        Cli.normKey r.linkedin_profile = r.linkedin_profile)
    (st : List Cli.PRow × List String) (Y : String) (es : List (Nat × String))
    (hes : es = (people.filter (fun r => Cli.normKey r.linkedin_profile = Y)).map Cli.toEntry)
    (hinv : ∀ r ∈ st.1, ∃ r0 ∈ people, r.id = r0.id ∧
      (r.linkedin_profile = r0.linkedin_profile ∨
        r.linkedin_profile = Cli.normKey r0.linkedin_profile))
    (hnd : (st.1.map (fun r => r.id)).Nodup) :
    Cli.groupConflict st Y es = false := by
  unfold Cli.groupConflict
  by_cases hlen : es.length ≤ 1
  · rw [if_pos hlen]
  · rw [if_neg hlen]
    dsimp only
    have hperm := List.perm_insertionSort (fun a b => a.1 ≤ b.1) es
    have hne : es.insertionSort (fun a b => a.1 ≤ b.1) ≠ [] := by
      intro h
      rw [h] at hperm
      have h1 := hperm.length_eq
      simp at h1
      omega
    obtain ⟨s0, stail, hs⟩ : ∃ s0 stail,
        es.insertionSort (fun a b => a.1 ≤ b.1) = s0 :: stail := by
      cases hsl : es.insertionSort (fun a b => a.1 ≤ b.1) with
      | nil => exact absurd hsl hne
      | cons a l => exact ⟨a, l, rfl⟩
    rw [hs]
    simp only [List.headD_cons, List.tail_cons]
    have hmem_m : ∃ m ∈ people, Cli.normKey m.linkedin_profile = Y := by
      have hfne : (people.filter (fun r => Cli.normKey r.linkedin_profile = Y)) ≠ [] := by
        intro hnil
        rw [hes, hnil] at hlen
        simp at hlen
      obtain ⟨m, hm⟩ := List.exists_mem_of_ne_nil _ hfne
      exact ⟨m, (List.mem_filter.mp hm).1, by simpa using (List.mem_filter.mp hm).2⟩
    obtain ⟨m, hmP, hmY⟩ := hmem_m
    unfold Cli.primaryConflict
    rw [cli_fold_fst]
    cases hf : (stail.foldl (fun rs e => Cli.processDupRows s0.1 rs e.1) st.1).find?
        (fun r => r.id = s0.1) with
    | none => rfl
    | some cur =>
      dsimp only
      by_cases hcur : cur.linkedin_profile = Y
      · rw [if_pos hcur]
      · rw [if_neg hcur]
        rw [List.any_eq_false]
        intro r hr
        simp only [decide_eq_true_eq]
        intro hpY
        obtain ⟨r1, hr1m, hid1, hprof1⟩ := cli_foldMem s0.1 stail st.1 r hr
        obtain ⟨r0, hr0, hid0, hcase⟩ := hinv r1 hr1m
        have hkey0 : Cli.normKey r0.linkedin_profile = Y := by
          rcases hcase with hraw | hkey
          · have h0Y : r0.linkedin_profile = Y := by
              rw [← hraw, ← hprof1]
              exact hpY
            have hfix := H r0 hr0 m hmP (by rw [h0Y, ← hmY])
            rw [hfix, h0Y]
          · rw [← hkey, ← hprof1]
            exact hpY
        have hr0F : r0 ∈ people.filter (fun r => Cli.normKey r.linkedin_profile = Y) :=
          List.mem_filter.mpr ⟨hr0, by simpa using hkey0⟩
        have hidE : r.id ∈ es.map Prod.fst := by
          rw [hes, List.map_map, hid1.trans hid0]
          exact List.mem_map_of_mem _ hr0F
        have hmapperm : (es.map Prod.fst).Perm ((s0 :: stail).map Prod.fst) := by
          have h4 := hperm.map Prod.fst
          rw [hs] at h4
          exact h4.symm
        have hidsorted := hmapperm.subset hidE
        rw [List.map_cons] at hidsorted
        rcases List.mem_cons.mp hidsorted with hpid | htail
        · have hcur_mem := List.mem_of_find?_eq_some hf
          have hcur_id : cur.id = s0.1 := by simpa using List.find?_some hf
          have hnd2 : ((stail.foldl (fun rs e => Cli.processDupRows s0.1 rs e.1) st.1).map
              (fun r => r.id)).Nodup :=
            List.Nodup.sublist (cli_foldIds s0.1 stail st.1) hnd
          have hrc : r = cur := cli_people_inj _ hnd2 r cur hr hcur_mem
            (by rw [hpid, hcur_id])
          exact hcur (by rw [← hrc]; exact hpY)
        · obtain ⟨e, he, heid⟩ := List.mem_map.mp htail
          exact cli_fold_deleted s0.1 stail st.1 e he
            (by rw [heid]; exact List.mem_map_of_mem _ hr)

theorem cli_runGroups_ok (people : List Cli.PRow)
    (H : ∀ r ∈ people, ∀ r' ∈ people,
      r.linkedin_profile = Cli.normKey r'.linkedin_profile →
        Cli.normKey r.linkedin_profile = r.linkedin_profile) :
    ∀ (gs : List (String × List (Nat × String))),
      (∀ g ∈ gs, g.2 = (people.filter (fun r => Cli.normKey r.linkedin_profile = g.1)).map
        Cli.toEntry) →
      ∀ st : List Cli.PRow × List String,
        (∀ r ∈ st.1, ∃ r0 ∈ people, r.id = r0.id ∧
          (r.linkedin_profile = r0.linkedin_profile ∨
            r.linkedin_profile = Cli.normKey r0.linkedin_profile)) →
        (st.1.map (fun r => r.id)).Nodup →
        Cli.runGroups gs st =
          Except.ok (gs.foldl (fun st g => Cli.processGroup st g.1 g.2) st) := by
  intro gs
  induction gs with
  | nil => intro _ st _ _; rfl
  | cons g gs ih =>
    intro hchar st hinv hnd
    have hcf := cli_groupConflict_false people H st g.1 g.2
      (hchar g (List.mem_cons_self g gs)) hinv hnd
    rw [Cli.runGroups, hcf, if_neg (by simp)]
    have hinv2 : ∀ r ∈ (Cli.processGroup st g.1 g.2).1, ∃ r0 ∈ people, r.id = r0.id ∧
        (r.linkedin_profile = r0.linkedin_profile ∨
          r.linkedin_profile = Cli.normKey r0.linkedin_profile) := by
      intro r hr
      obtain ⟨r1, hr1, hid, hcase⟩ := cli_processGroup_mem st g.1 g.2 r hr
      rcases hcase with hpeq | ⟨hpg, e, he, hide⟩
      · obtain ⟨r0, hr0, hid0, hcase0⟩ := hinv r1 hr1
        refine ⟨r0, hr0, hid.trans hid0, ?_⟩
        rcases hcase0 with h | h
        · exact Or.inl (hpeq.trans h)
        · exact Or.inr (hpeq.trans h)
      · have hche := hchar g (List.mem_cons_self g gs)
        rw [hche] at he
        obtain ⟨rg, hrgF, hrge⟩ := List.mem_map.mp he
        refine ⟨rg, (List.mem_filter.mp hrgF).1, ?_, Or.inr ?_⟩
        · rw [hide, ← hrge]
          exact cli_toEntry_fst rg
        · rw [hpg]
          have hkg := (List.mem_filter.mp hrgF).2
          simp only [decide_eq_true_eq] at hkg
          exact hkg.symm
    have hnd2 : ((Cli.processGroup st g.1 g.2).1.map (fun r => r.id)).Nodup :=
      List.Nodup.sublist (cli_processGroup_ids st g.1 g.2) hnd
    rw [ih (fun g1 hg1 => hchar g1 (List.mem_cons_of_mem g hg1)) _ hinv2 hnd2,
      List.foldl_cons]

